import Mathlib

/-
Verification of the IXFR (RFC 1995 incremental zone transfer) engine of the
NSD authoritative nameserver, a shallow embedding of src/ixfr.c.

Byte buffers are modelled as List Nat (one Nat per octet), sizes and serials
as Nat, and the per-zone red-black tree of difference segments as a list kept
sorted by the tree's comparison function.  External collaborators of ixfr.c
(packet codec, zone database, rbtree library, RFC 1982 serial comparison in
util.c) are modelled from their documented contracts where noted.
-/

namespace Ixfr

/-! ## RFC 1982 serial comparison -/

/-- Modelled from the spec: `(a - b) mod 2^32` on 32-bit serial numbers. -/
def serial_sub (a b : Nat) : Nat :=
  (a % 2 ^ 32 + 2 ^ 32 - b % 2 ^ 32) % 2 ^ 32

/-- Modelled from the spec: RFC 1982 comparison, `a < b` iff
`(b - a) mod 2^32` lies in `(0, 2^31)`.  The implementation
(`compare_serial`) lives in util.c, outside this file. -/
def serial_lt (a b : Nat) : Bool :=
  decide (0 < serial_sub b a ∧ serial_sub b a < 2 ^ 31)

/-- Modelled from the spec: the three-way RFC 1982 comparison used by
`query_ixfr` (`compare_serial` in util.c): 0 on equality, -1 when `a` is
older than `b`, 1 otherwise. -/
def compare_serial (a b : Nat) : Int :=
  if a % 2 ^ 32 = b % 2 ^ 32 then 0
  else if serial_lt a b then -1
  else 1

/-! ## Data model: one IXFR difference segment (struct ixfr_data)

The wire buffers `newsoa`, `oldsoa`, `del`, `add` are byte runs of
concatenated uncompressed resource records. -/

structure IxfrData where
  oldserial : Nat
  newserial : Nat
  newsoa : List Nat
  oldsoa : List Nat
  del : List Nat
  add : List Nat
  deriving Repr, DecidableEq, Inhabited

/-- Stand-in for `sizeof(struct ixfr_data)`, the fixed header charged to the
budget in `ixfr_data_size`; any positive constant is faithful since the C
value is platform dependent. -/
def ixfr_data_header_size : Nat := 64

/-- `ixfr_data_size`: budget charge of one segment. -/
def ixfr_data_size (d : IxfrData) : Nat :=
  ixfr_data_header_size + d.newsoa.length + d.oldsoa.length
    + d.del.length + d.add.length

/-! ## RR byte walker (`count_rr_length`)

The C routine scans the owner dname label by label, then the 10 fixed
header bytes, then `rdlen` bytes of rdata, returning the total length of
the record starting at `current`, or 0 on malformed framing.  The dname
scan is split out as `scan_name`, returning the index just past the
terminating root label. -/

def scan_name_fuel (data : List Nat) : Nat → Nat → Option Nat
  | 0, _ => none
  | fuel + 1, i =>
    if i + 1 > data.length then none
    else if data.getD i 0 = 0 then some (i + 1)
    else if data.getD i 0 &&& 0xc0 ≠ 0 then none
    else if i + 1 + data.getD i 0 > data.length then none
    else scan_name_fuel data fuel (i + 1 + data.getD i 0)

/-- The owner-dname scanning loop of `count_rr_length`.  The loop advances
the position by at least one byte per label, so `data.length + 1` rounds of
fuel always outlast it (`scan_name_fuel_congr` below); the fuel only makes
the recursion structural. -/
def scan_name (data : List Nat) (i : Nat) : Option Nat :=
  scan_name_fuel data (data.length + 1) i

theorem scan_name_fuel_congr {data : List Nat} :
    ∀ (f1 f2 i : Nat), data.length - i < f1 → data.length - i < f2 →
    scan_name_fuel data f1 i = scan_name_fuel data f2 i := by
  intro f1
  induction f1 with
  | zero =>
    intro f2 i h1 _
    omega
  | succ f1 ih =>
    intro f2 i h1 h2
    cases f2 with
    | zero => omega
    | succ f2 =>
      simp only [scan_name_fuel]
      by_cases hc1 : i + 1 > data.length
      · rw [if_pos hc1, if_pos hc1]
      · rw [if_neg hc1, if_neg hc1]
        by_cases hc2 : data.getD i 0 = 0
        · rw [if_pos hc2, if_pos hc2]
        · rw [if_neg hc2, if_neg hc2]
          by_cases hc3 : data.getD i 0 &&& 192 ≠ 0
          · rw [if_pos hc3, if_pos hc3]
          · rw [if_neg hc3, if_neg hc3]
            by_cases hc4 : i + 1 + data.getD i 0 > data.length
            · rw [if_pos hc4, if_pos hc4]
            · rw [if_neg hc4, if_neg hc4]
              exact ih f2 (i + 1 + data.getD i 0) (by omega) (by omega)

theorem scan_name_fuel_eq {data : List Nat} {f i : Nat}
    (h : data.length - i < f) :
    scan_name_fuel data f i = scan_name data i :=
  scan_name_fuel_congr f (data.length + 1) i h (by omega)

def count_rr_length (data : List Nat) (current : Nat) : Nat :=
  if current ≥ data.length then 0
  else
    match scan_name data current with
    | none => 0
    | some i =>
      if i + 10 > data.length then 0
      else if i + 10 + (256 * data.getD (i + 8) 0 + data.getD (i + 9) 0)
          > data.length then 0
      else i + 10 + (256 * data.getD (i + 8) 0 + data.getD (i + 9) 0) - current

/-- Big-endian 16-bit write (`write_uint16`), as a two-byte list. -/
def write_uint16 (v : Nat) : List Nat :=
  [v / 256 % 256, v % 256]

/-- Big-endian 32-bit write (`write_uint32`), as a four-byte list. -/
def write_uint32 (v : Nat) : List Nat :=
  [v / 2 ^ 24 % 256, v / 2 ^ 16 % 256, v / 2 ^ 8 % 256, v % 256]

/-- Wire encoding of an uncompressed dname from its label list. -/
def encodeName (labels : List (List Nat)) : List Nat :=
  (labels.map (fun l => l.length :: l)).flatten ++ [0]

/-- The labels of a well-formed uncompressed dname: nonempty and at most
63 bytes each, so the length byte has the top two bits clear. -/
def validLabels (labels : List (List Nat)) : Prop :=
  ∀ l ∈ labels, 0 < l.length ∧ l.length ≤ 63

instance validLabels_decidable (labels : List (List Nat)) :
    Decidable (validLabels labels) :=
  List.decidableBAll _ labels

/-! ### Walker lemmas -/

theorem and_192_eq_zero {n : Nat} (h : n ≤ 63) : n &&& 192 = 0 := by
  apply Nat.eq_of_testBit_eq
  intro i
  rw [Nat.testBit_and, Nat.zero_testBit]
  rcases Nat.lt_or_ge i 6 with hi | hi
  · have h192 : Nat.testBit 192 i = false := by interval_cases i <;> decide
    simp [h192]
  · have hn : n < 2 ^ i := lt_of_le_of_lt h (by
      calc (63 : Nat) < 2 ^ 6 := by norm_num
      _ ≤ 2 ^ i := Nat.pow_le_pow_right (by norm_num) hi)
    simp [Nat.testBit_lt_two_pow hn]

theorem scan_name_fuel_bounds {data : List Nat} :
    ∀ {f i j : Nat}, scan_name_fuel data f i = some j →
    i < j ∧ j ≤ data.length := by
  intro f
  induction f with
  | zero =>
    intro i j h
    simp only [scan_name_fuel] at h
    cases h
  | succ f ih =>
    intro i j h
    simp only [scan_name_fuel] at h
    by_cases h1 : i + 1 > data.length
    · rw [if_pos h1] at h; cases h
    · rw [if_neg h1] at h
      by_cases h2 : data.getD i 0 = 0
      · rw [if_pos h2] at h
        cases h
        omega
      · rw [if_neg h2] at h
        by_cases h3 : data.getD i 0 &&& 192 ≠ 0
        · rw [if_pos h3] at h; cases h
        · rw [if_neg h3] at h
          by_cases h4 : i + 1 + data.getD i 0 > data.length
          · rw [if_pos h4] at h; cases h
          · rw [if_neg h4] at h
            have := ih h
            omega

theorem scan_name_bounds {data : List Nat} {i j : Nat}
    (h : scan_name data i = some j) : i < j ∧ j ≤ data.length :=
  scan_name_fuel_bounds h

/-- A successful walk never reads past the end of the buffer: the reported
length stays inside `data`. -/
theorem count_rr_length_le {data : List Nat} {current : Nat}
    (h : count_rr_length data current ≠ 0) :
    current + count_rr_length data current ≤ data.length := by
  rw [count_rr_length] at h ⊢
  by_cases hc : current ≥ data.length
  · rw [if_pos hc] at h
    exact absurd rfl h
  · rw [if_neg hc] at h ⊢
    rcases hs : scan_name data current with _ | i
    · simp only [hs] at h
      exact absurd rfl h
    · have hb := scan_name_bounds hs
      simp only [hs] at h ⊢
      by_cases h10 : i + 10 > data.length
      · rw [if_pos h10] at h
        exact absurd rfl h
      · rw [if_neg h10] at h ⊢
        by_cases hrd : i + 10 + (256 * data.getD (i + 8) 0
            + data.getD (i + 9) 0) > data.length
        · rw [if_pos hrd] at h
          exact absurd rfl h
        · rw [if_neg hrd] at h ⊢
          omega

theorem count_rr_length_oob {data : List Nat} {current : Nat}
    (h : data.length ≤ current) : count_rr_length data current = 0 := by
  rw [count_rr_length, if_pos (by omega)]

theorem scan_name_encode (labels : List (List Nat)) :
    ∀ (pre post : List Nat), validLabels labels →
    scan_name (pre ++ (encodeName labels ++ post)) pre.length
      = some (pre.length + (encodeName labels).length) := by
  induction labels with
  | nil =>
    intro pre post _
    rw [scan_name]
    simp only [scan_name_fuel]
    have hlen : (pre ++ (encodeName [] ++ post)).length
        = pre.length + 1 + post.length := by
      simp only [encodeName, List.map_nil, List.flatten_nil, List.nil_append,
        List.length_append, List.length_cons, List.length_nil]
      omega
    have hget : (pre ++ (encodeName [] ++ post)).getD pre.length 0 = 0 := by
      rw [List.getD_append_right _ _ _ _ (le_refl _)]
      simp [encodeName]
    rw [hget, hlen]
    rw [if_neg (by omega), if_pos rfl]
    have h1 : (encodeName ([] : List (List Nat))).length = 1 := by
      simp [encodeName]
    rw [h1]
  | cons l ls ih =>
    intro pre post hv
    have hl : 0 < l.length ∧ l.length ≤ 63 := hv l (List.mem_cons_self l ls)
    have henc : encodeName (l :: ls) = (l.length :: l) ++ encodeName ls := by
      simp [encodeName]
    have hassoc : pre ++ (encodeName (l :: ls) ++ post)
        = (pre ++ (l.length :: l)) ++ (encodeName ls ++ post) := by
      rw [henc]; simp
    rw [hassoc, scan_name]
    simp only [scan_name_fuel]
    have hget : ((pre ++ (l.length :: l)) ++ (encodeName ls ++ post)).getD
        pre.length 0 = l.length := by
      rw [List.append_assoc, List.getD_append_right _ _ _ _ (le_refl _)]
      simp
    have hlen : ((pre ++ (l.length :: l)) ++ (encodeName ls ++ post)).length
        = pre.length + 1 + l.length + (encodeName ls).length + post.length := by
      simp [encodeName]
      omega
    rw [hget, hlen]
    rw [if_neg (by omega), if_neg (by omega),
      if_neg (by simp [and_192_eq_zero hl.2]), if_neg (by omega)]
    have hpos : pre.length + 1 + l.length = (pre ++ (l.length :: l)).length := by
      simp only [List.length_append, List.length_cons]
      omega
    rw [hpos]
    rw [scan_name_fuel_eq (by
      rw [hlen]
      simp only [List.length_append, List.length_cons]
      omega)]
    rw [ih (pre ++ (l.length :: l)) post
      (fun x hx => hv x (List.mem_cons_of_mem l hx))]
    have : (pre ++ (l.length :: l)).length + (encodeName ls).length
        = pre.length + (encodeName (l :: ls)).length := by
      simp only [encodeName, List.length_append, List.length_cons,
        List.map_cons, List.flatten_cons]
      omega
    rw [this]

theorem getD_at_append (a b : List Nat) (k : Nat) :
    (a ++ b).getD (a.length + k) 0 = b.getD k 0 := by
  rw [List.getD_append_right _ _ _ _ (by omega)]
  congr 1
  omega

theorem count_rr_length_wf (pre : List Nat) (labels : List (List Nat))
    (fixed8 rdata post : List Nat) (hv : validLabels labels)
    (hf : fixed8.length = 8) (hr : rdata.length < 65536) :
    count_rr_length
      (pre ++ (encodeName labels
        ++ (fixed8 ++ (write_uint16 rdata.length ++ (rdata ++ post)))))
      pre.length
      = (encodeName labels).length + 10 + rdata.length := by
  have hscan := scan_name_encode labels pre
    (fixed8 ++ (write_uint16 rdata.length ++ (rdata ++ post))) hv
  have hN1 : (encodeName labels).length
      = (labels.map (fun l => l.length :: l)).flatten.length + 1 := by
    simp [encodeName]
  have hlen : (pre ++ (encodeName labels
        ++ (fixed8 ++ (write_uint16 rdata.length ++ (rdata ++ post))))).length
      = pre.length + (encodeName labels).length + 10 + rdata.length
        + post.length := by
    simp only [List.length_append, write_uint16, List.length_cons,
      List.length_nil]
    omega
  have hassoc : pre ++ (encodeName labels
        ++ (fixed8 ++ (write_uint16 rdata.length ++ (rdata ++ post))))
      = (pre ++ encodeName labels)
        ++ (fixed8 ++ (write_uint16 rdata.length ++ (rdata ++ post))) := by
    simp
  have hpn : (pre ++ encodeName labels).length
      = pre.length + (encodeName labels).length := by
    simp
  have hget8 : (pre ++ (encodeName labels
        ++ (fixed8 ++ (write_uint16 rdata.length ++ (rdata ++ post))))).getD
      (pre.length + (encodeName labels).length + 8) 0
      = rdata.length / 256 % 256 := by
    rw [hassoc]
    have he : pre.length + (encodeName labels).length + 8
        = (pre ++ encodeName labels).length + 8 := by omega
    rw [he, getD_at_append]
    have he2 : (8 : Nat) = fixed8.length + 0 := by omega
    rw [he2, getD_at_append]
    simp [write_uint16]
  have hget9 : (pre ++ (encodeName labels
        ++ (fixed8 ++ (write_uint16 rdata.length ++ (rdata ++ post))))).getD
      (pre.length + (encodeName labels).length + 9) 0
      = rdata.length % 256 := by
    rw [hassoc]
    have he : pre.length + (encodeName labels).length + 9
        = (pre ++ encodeName labels).length + 9 := by omega
    rw [he, getD_at_append]
    have he2 : (9 : Nat) = fixed8.length + 1 := by omega
    rw [he2, getD_at_append]
    simp [write_uint16]
  rw [count_rr_length, if_neg (by omega)]
  simp only [hscan]
  rw [if_neg (by omega), hget8, hget9]
  have hrdlen : 256 * (rdata.length / 256 % 256) + rdata.length % 256
      = rdata.length := by omega
  rw [hrdlen, if_neg (by omega)]
  omega

theorem scan_name_compressed (labels : List (List Nat)) :
    ∀ (pre : List Nat) (b : Nat) (post : List Nat), validLabels labels →
    b &&& 192 ≠ 0 →
    scan_name (pre ++ ((labels.map (fun l => l.length :: l)).flatten
      ++ (b :: post))) pre.length = none := by
  induction labels with
  | nil =>
    intro pre b post _ hb
    have hb0 : b ≠ 0 := by
      intro h
      rw [h] at hb
      exact hb rfl
    have hdata : pre ++ ((([] : List (List Nat)).map
        (fun l => l.length :: l)).flatten ++ (b :: post))
        = pre ++ (b :: post) := by
      simp
    rw [hdata, scan_name]
    simp only [scan_name_fuel]
    have hget : (pre ++ (b :: post)).getD pre.length 0 = b := by
      rw [List.getD_append_right _ _ _ _ (le_refl _)]
      simp
    have hlen : (pre ++ (b :: post)).length
        = pre.length + 1 + post.length := by
      simp
      omega
    rw [hget, hlen]
    rw [if_neg (by omega), if_neg hb0, if_pos hb]
  | cons l ls ih =>
    intro pre b post hv hb
    have hl : 0 < l.length ∧ l.length ≤ 63 := hv l (List.mem_cons_self l ls)
    have hassoc : pre ++ (((l :: ls).map (fun x => x.length :: x)).flatten
          ++ (b :: post))
        = (pre ++ (l.length :: l)) ++ ((ls.map
          (fun x => x.length :: x)).flatten ++ (b :: post)) := by
      simp
    rw [hassoc, scan_name]
    simp only [scan_name_fuel]
    have hget : ((pre ++ (l.length :: l)) ++ ((ls.map
        (fun x => x.length :: x)).flatten ++ (b :: post))).getD
        pre.length 0 = l.length := by
      rw [List.append_assoc, List.getD_append_right _ _ _ _ (le_refl _)]
      simp
    have hlen : ((pre ++ (l.length :: l)) ++ ((ls.map
        (fun x => x.length :: x)).flatten ++ (b :: post))).length
        = pre.length + 1 + l.length
          + (ls.map (fun x => x.length :: x)).flatten.length + 1
          + post.length := by
      simp
      omega
    rw [hget, hlen]
    rw [if_neg (by omega), if_neg (by omega),
      if_neg (by simp [and_192_eq_zero hl.2]), if_neg (by omega)]
    have hpos : pre.length + 1 + l.length = (pre ++ (l.length :: l)).length := by
      simp only [List.length_append, List.length_cons]
      omega
    rw [hpos]
    rw [scan_name_fuel_eq (by
      rw [hlen]
      simp only [List.length_append, List.length_cons]
      omega)]
    exact ih (pre ++ (l.length :: l)) b post
      (fun x hx => hv x (List.mem_cons_of_mem l hx)) hb

theorem count_rr_length_compressed (pre : List Nat) (labels : List (List Nat))
    (b : Nat) (post : List Nat) (hv : validLabels labels)
    (hb : b &&& 192 ≠ 0) :
    count_rr_length (pre ++ ((labels.map (fun l => l.length :: l)).flatten
      ++ (b :: post))) pre.length = 0 := by
  have hscan := scan_name_compressed labels pre b post hv hb
  have hlen : (pre ++ ((labels.map (fun l => l.length :: l)).flatten
      ++ (b :: post))).length
      = pre.length + (labels.map (fun l => l.length :: l)).flatten.length
        + 1 + post.length := by
    simp
    omega
  rw [count_rr_length, if_neg (by omega)]
  simp only [hscan]

/-- C7: for a buffer `b` of length `n` and start offset `i < n`, the RR byte
walker returns owner-name length plus 10 fixed header bytes plus rdlen on a
well-formed RR; it returns failure (0) when a label length byte has the top
two bits set; a successful walk never extends past `n`; and a start at or
past `n` fails. -/
theorem claim_c7 :
    (∀ (pre : List Nat) (labels : List (List Nat)) (fixed8 rdata post : List Nat),
      validLabels labels → fixed8.length = 8 → rdata.length < 65536 →
      count_rr_length (pre ++ (encodeName labels ++ (fixed8
        ++ (write_uint16 rdata.length ++ (rdata ++ post))))) pre.length
        = (encodeName labels).length + 10 + rdata.length)
    ∧ (∀ (pre : List Nat) (labels : List (List Nat)) (b : Nat) (post : List Nat),
      validLabels labels → b &&& 192 = 192 →
      count_rr_length (pre ++ ((labels.map (fun l => l.length :: l)).flatten
        ++ (b :: post))) pre.length = 0)
    ∧ (∀ (data : List Nat) (current : Nat), count_rr_length data current ≠ 0 →
      current + count_rr_length data current ≤ data.length)
    ∧ (∀ (data : List Nat) (current : Nat), data.length ≤ current →
      count_rr_length data current = 0) := by
  refine ⟨count_rr_length_wf, ?_, fun _ _ => count_rr_length_le,
    fun _ _ => count_rr_length_oob⟩
  intro pre labels b post hv hb
  exact count_rr_length_compressed pre labels b post hv (by rw [hb]; decide)

/-- Witness for C7 at concrete inputs: a two-label name with three rdata
bytes, a rejected 0xc0 label byte, and boundary cases. -/
theorem claim_c7_witness :
    (count_rr_length (([] : List Nat) ++ (encodeName [[97, 98]]
      ++ ([0, 1, 0, 1, 0, 0, 0, 8]
        ++ (write_uint16 ([5, 6, 7] : List Nat).length
          ++ (([5, 6, 7] : List Nat) ++ ([] : List Nat))))))
      ([] : List Nat).length
      = (encodeName [[97, 98]]).length + 10 + ([5, 6, 7] : List Nat).length)
    ∧ (count_rr_length (([] : List Nat)
      ++ ((([[97]] : List (List Nat)).map (fun l => l.length :: l)).flatten
        ++ (192 :: ([] : List Nat)))) ([] : List Nat).length = 0)
    ∧ (0 + count_rr_length [0, 0, 0, 0, 0, 0, 0, 0, 0, 0, 0] 0
      ≤ ([0, 0, 0, 0, 0, 0, 0, 0, 0, 0, 0] : List Nat).length)
    ∧ (count_rr_length [] 5 = 0) :=
  ⟨claim_c7.1 [] [[97, 98]] [0, 1, 0, 1, 0, 0, 0, 8] [5, 6, 7] []
      (by decide) (by decide) (by decide),
    claim_c7.2.1 [] [[97]] 192 [] (by decide) (by decide),
    claim_c7.2.2.1 [0, 0, 0, 0, 0, 0, 0, 0, 0, 0, 0] 0 (by decide),
    claim_c7.2.2.2 [] 5 (by decide)⟩

/-! ## Version chain (struct zone_ixfr)

The per-zone red-black tree `zone_ixfr->data` keyed by `oldserial` is
modelled as the ordered list of its elements, ordered by the tree's
comparison function `ixfrcompare`; `rbtree_first`/`rbtree_next` become the
head / successor of that list.  `total_size` is kept incrementally in C and
computed here. -/

/-- `ixfrcompare`: rbtree comparison of two serial keys, plain unsigned
32-bit integer order. -/
def ixfrcompare (x y : Nat) : Int :=
  if x < y then -1 else if x > y then 1 else 0

/-- `zone_ixfr_add`: key the segment by its `oldserial` and insert into the
tree ordered by `ixfrcompare` (a duplicate key leaves the rbtree unchanged,
per the rbtree_insert contract). -/
def zone_ixfr_add_list : List IxfrData → IxfrData → List IxfrData
  | [], d => [d]
  | x :: xs, d =>
    if d.oldserial < x.oldserial then d :: x :: xs
    else if x.oldserial < d.oldserial then x :: zone_ixfr_add_list xs d
    else x :: xs

/-- `zone_ixfr_find_serial`: exact-match rbtree_search on the key. -/
def zone_ixfr_find_serial (chain : List IxfrData) (qserial : Nat) :
    Option IxfrData :=
  chain.find? (fun d => d.oldserial == qserial)

/-- Aggregate `zone_ixfr->total_size`. -/
def total_size (chain : List IxfrData) : Nat :=
  (chain.map ixfr_data_size).sum

/-- Per-zone configuration: `ixfr_number` (max segment count, 0 = do not
store) and `ixfr_size` (max aggregate bytes, 0 = no cap). -/
structure IxfrConfig where
  ixfr_number : Nat
  ixfr_size : Nat
  deriving Repr, DecidableEq, Inhabited

/-- `zone_ixfr_remove_oldest`: delete the first (smallest-key) element. -/
def zone_ixfr_remove_oldest : List IxfrData → List IxfrData
  | [] => []
  | _ :: rest => rest

/-- The count loop of `zone_ixfr_make_space`: while the segment count is at
least `number`, remove the oldest.  (When `number = 0` the caller has
already cancelled and returned, so the `[]` stop is unreachable there.) -/
def evict_to_count (number : Nat) : List IxfrData → List IxfrData
  | [] => []
  | x :: xs =>
    if xs.length + 1 ≥ number then evict_to_count number xs
    else x :: xs

/-- The size loop of `zone_ixfr_make_space`: while the count is positive and
the aggregate size plus the candidate's size overflows `limit`, remove the
oldest. -/
def evict_to_size (limit addsize : Nat) : List IxfrData → List IxfrData
  | [] => []
  | x :: xs =>
    if total_size (x :: xs) + addsize > limit then evict_to_size limit addsize xs
    else x :: xs

/-! ## Segment builder (struct ixfr_store) -/

/-- The builder: owns the segment being built (`data`, NULL after cancel),
the spare capacities of the two growing runs, and the cancelled flag. -/
structure IxfrStore where
  data : Option IxfrData
  del_capacity : Nat
  add_capacity : Nat
  cancelled : Bool
  deriving Repr, DecidableEq, Inhabited

/-- `ixfr_store_cancel`: set the flag, free the segment. -/
def ixfr_store_cancel (st : IxfrStore) : IxfrStore :=
  { st with cancelled := true, data := none }

/-- `zone_ixfr_make_space`: evict oldest segments until the chain count is
below `ixfr_number` and (when `ixfr_size` is nonzero) the aggregate size
plus the candidate's fits; cancel the builder when `ixfr_number` is 0 or
the candidate cannot fit even in an empty chain. -/
def zone_ixfr_make_space (cfg : IxfrConfig) (chain : List IxfrData)
    (st : IxfrStore) : List IxfrData × IxfrStore :=
  match st.data with
  | none => (chain, st)
  | some d =>
    if cfg.ixfr_number = 0 then (chain, ixfr_store_cancel st)
    else if cfg.ixfr_size = 0 then (evict_to_count cfg.ixfr_number chain, st)
    else if (evict_to_size cfg.ixfr_size (ixfr_data_size d)
          (evict_to_count cfg.ixfr_number chain)).length = 0
        ∧ total_size (evict_to_size cfg.ixfr_size (ixfr_data_size d)
          (evict_to_count cfg.ixfr_number chain)) + ixfr_data_size d
          > cfg.ixfr_size then
      (evict_to_size cfg.ixfr_size (ixfr_data_size d)
        (evict_to_count cfg.ixfr_number chain), ixfr_store_cancel st)
    else
      (evict_to_size cfg.ixfr_size (ixfr_data_size d)
        (evict_to_count cfg.ixfr_number chain), st)

/-! ### Chain lemmas -/

/-- The chain invariant maintained by the rbtree: strictly sorted by
`oldserial` in `ixfrcompare` (plain unsigned) order. -/
def chain_sorted (l : List IxfrData) : Prop :=
  l.Pairwise (fun a b => a.oldserial < b.oldserial)

/-- The ordering the spec asserts instead: sorted by RFC 1982 comparison. -/
def chain_sorted_rfc1982 (l : List IxfrData) : Prop :=
  l.Pairwise (fun a b => serial_lt a.oldserial b.oldserial = true)

theorem zone_ixfr_add_list_mem {l : List IxfrData} {d y : IxfrData}
    (h : y ∈ zone_ixfr_add_list l d) : y ∈ l ∨ y = d := by
  induction l with
  | nil =>
    simp only [zone_ixfr_add_list, List.mem_singleton] at h
    exact Or.inr h
  | cons x xs ih =>
    rw [zone_ixfr_add_list] at h
    by_cases h1 : d.oldserial < x.oldserial
    · rw [if_pos h1] at h
      simp only [List.mem_cons] at h
      rcases h with h | h | h
      · exact Or.inr h
      · exact Or.inl (by simp [h])
      · exact Or.inl (by simp [h])
    · rw [if_neg h1] at h
      by_cases h2 : x.oldserial < d.oldserial
      · rw [if_pos h2] at h
        simp only [List.mem_cons] at h
        rcases h with h | h
        · exact Or.inl (by simp [h])
        · rcases ih h with h3 | h3
          · exact Or.inl (by simp [h3])
          · exact Or.inr h3
      · rw [if_neg h2] at h
        exact Or.inl h

theorem zone_ixfr_add_list_sorted {l : List IxfrData} (d : IxfrData)
    (h : chain_sorted l) : chain_sorted (zone_ixfr_add_list l d) := by
  induction l with
  | nil => simp [zone_ixfr_add_list, chain_sorted]
  | cons x xs ih =>
    rw [chain_sorted, List.pairwise_cons] at h
    rw [zone_ixfr_add_list]
    by_cases h1 : d.oldserial < x.oldserial
    · rw [if_pos h1]
      rw [chain_sorted, List.pairwise_cons]
      constructor
      · intro y hy
        simp only [List.mem_cons] at hy
        rcases hy with hy | hy
        · subst hy
          omega
        · have := h.1 y hy
          omega
      · rw [List.pairwise_cons]
        exact h
    · rw [if_neg h1]
      by_cases h2 : x.oldserial < d.oldserial
      · rw [if_pos h2]
        rw [chain_sorted, List.pairwise_cons]
        constructor
        · intro y hy
          rcases zone_ixfr_add_list_mem hy with hy | hy
          · exact h.1 y hy
          · subst hy
            omega
        · exact ih h.2
      · rw [if_neg h2]
        rw [chain_sorted, List.pairwise_cons]
        exact h

theorem zone_ixfr_find_serial_some {chain : List IxfrData} {q : Nat}
    {r : IxfrData} (h : zone_ixfr_find_serial chain q = some r) :
    r.oldserial = q ∧ r ∈ chain := by
  constructor
  · have := List.find?_some h
    simpa using this
  · exact List.mem_of_find?_eq_some h

theorem zone_ixfr_find_serial_complete {chain : List IxfrData} {q : Nat}
    (h : ∃ d ∈ chain, d.oldserial = q) :
    ∃ r, zone_ixfr_find_serial chain q = some r ∧ r.oldserial = q := by
  rcases h with ⟨d, hd, hq⟩
  rcases hr : zone_ixfr_find_serial chain q with _ | r
  · rw [zone_ixfr_find_serial, List.find?_eq_none] at hr
    exact absurd (by simpa using hq) (hr d hd)
  · exact ⟨r, rfl, (zone_ixfr_find_serial_some hr).1⟩

theorem evict_to_count_eq_drop {number : Nat} (_h : 1 ≤ number) :
    ∀ l : List IxfrData, evict_to_count number l
      = l.drop (l.length + 1 - number) := by
  intro l
  induction l with
  | nil => simp [evict_to_count]
  | cons x xs ih =>
    rw [evict_to_count]
    by_cases hc : xs.length + 1 ≥ number
    · rw [if_pos hc, ih]
      have he : (x :: xs).length + 1 - number
          = (xs.length + 1 - number) + 1 := by
        simp only [List.length_cons]
        omega
      rw [he, List.drop_succ_cons]
    · rw [if_neg hc]
      have he : (x :: xs).length + 1 - number = 0 := by
        simp only [List.length_cons]
        omega
      rw [he, List.drop_zero]

theorem evict_to_count_length {number : Nat} (h : 1 ≤ number)
    (l : List IxfrData) :
    (evict_to_count number l).length = min l.length (number - 1) := by
  rw [evict_to_count_eq_drop h, List.length_drop]
  omega

theorem evict_to_size_length_le (limit addsize : Nat) :
    ∀ l : List IxfrData,
    (evict_to_size limit addsize l).length ≤ l.length := by
  intro l
  induction l with
  | nil => simp [evict_to_size]
  | cons x xs ih =>
    rw [evict_to_size]
    by_cases hc : total_size (x :: xs) + addsize > limit
    · rw [if_pos hc]
      calc (evict_to_size limit addsize xs).length ≤ xs.length := ih
      _ ≤ (x :: xs).length := by simp
    · rw [if_neg hc]

theorem evict_to_size_spec (limit addsize : Nat) :
    ∀ l : List IxfrData,
    evict_to_size limit addsize l = []
      ∨ total_size (evict_to_size limit addsize l) + addsize ≤ limit := by
  intro l
  induction l with
  | nil => exact Or.inl rfl
  | cons x xs ih =>
    rw [evict_to_size]
    by_cases hc : total_size (x :: xs) + addsize > limit
    · rw [if_pos hc]
      exact ih
    · rw [if_neg hc]
      exact Or.inr (by omega)

/-- C6: behaviour of `zone_ixfr_make_space` on a live builder carrying
candidate segment `d`: an `ixfr_number` of 0 cancels immediately and leaves
the chain untouched; otherwise the chain is left strictly below the count
budget; with a nonzero byte budget, either the candidate fits next to the
surviving segments or everything has been evicted and the builder is
cancelled; with a zero byte budget only count eviction (oldest first)
happens. -/
theorem claim_c6 (cfg : IxfrConfig) (chain : List IxfrData) (st : IxfrStore)
    (d : IxfrData) (hd : st.data = some d) (hc : st.cancelled = false) :
    (cfg.ixfr_number = 0 →
      zone_ixfr_make_space cfg chain st = (chain, ixfr_store_cancel st))
    ∧ (0 < cfg.ixfr_number →
      (zone_ixfr_make_space cfg chain st).1.length < cfg.ixfr_number)
    ∧ (0 < cfg.ixfr_number → cfg.ixfr_size ≠ 0 →
      (zone_ixfr_make_space cfg chain st).2.cancelled = false →
      total_size (zone_ixfr_make_space cfg chain st).1 + ixfr_data_size d
        ≤ cfg.ixfr_size)
    ∧ (0 < cfg.ixfr_number → cfg.ixfr_size ≠ 0 →
      (zone_ixfr_make_space cfg chain st).2.cancelled = true →
      (zone_ixfr_make_space cfg chain st).1 = []
        ∧ cfg.ixfr_size < total_size ([] : List IxfrData) + ixfr_data_size d)
    ∧ (0 < cfg.ixfr_number → cfg.ixfr_size = 0 →
      zone_ixfr_make_space cfg chain st
        = (chain.drop (chain.length + 1 - cfg.ixfr_number), st)) := by
  refine ⟨?_, ?_, ?_, ?_, ?_⟩
  · intro h0
    simp only [zone_ixfr_make_space, hd]
    rw [if_pos h0]
  · intro hn
    simp only [zone_ixfr_make_space, hd]
    rw [if_neg (by omega)]
    by_cases hsz : cfg.ixfr_size = 0
    · rw [if_pos hsz]
      have := evict_to_count_length (by omega : 1 ≤ cfg.ixfr_number) chain
      simp only []
      omega
    · rw [if_neg hsz]
      have h1 := evict_to_count_length (by omega : 1 ≤ cfg.ixfr_number) chain
      have h2 := evict_to_size_length_le cfg.ixfr_size (ixfr_data_size d)
        (evict_to_count cfg.ixfr_number chain)
      by_cases hcond : (evict_to_size cfg.ixfr_size (ixfr_data_size d)
            (evict_to_count cfg.ixfr_number chain)).length = 0
          ∧ total_size (evict_to_size cfg.ixfr_size (ixfr_data_size d)
            (evict_to_count cfg.ixfr_number chain)) + ixfr_data_size d
            > cfg.ixfr_size
      · rw [if_pos hcond]
        simp only []
        omega
      · rw [if_neg hcond]
        simp only []
        omega
  · intro hn hsz hnc
    simp only [zone_ixfr_make_space, hd] at hnc ⊢
    rw [if_neg (by omega), if_neg hsz] at hnc ⊢
    by_cases hcond : (evict_to_size cfg.ixfr_size (ixfr_data_size d)
          (evict_to_count cfg.ixfr_number chain)).length = 0
        ∧ total_size (evict_to_size cfg.ixfr_size (ixfr_data_size d)
          (evict_to_count cfg.ixfr_number chain)) + ixfr_data_size d
          > cfg.ixfr_size
    · rw [if_pos hcond] at hnc
      simp [ixfr_store_cancel] at hnc
    · rw [if_neg hcond]
      simp only []
      rcases evict_to_size_spec cfg.ixfr_size (ixfr_data_size d)
        (evict_to_count cfg.ixfr_number chain) with hres | hres
      · rw [hres]
        rw [hres] at hcond
        simp only [List.length_nil, true_and, not_lt] at hcond
        simpa [total_size] using hcond
      · exact hres
  · intro hn hsz hcanc
    simp only [zone_ixfr_make_space, hd] at hcanc ⊢
    rw [if_neg (by omega), if_neg hsz] at hcanc ⊢
    by_cases hcond : (evict_to_size cfg.ixfr_size (ixfr_data_size d)
          (evict_to_count cfg.ixfr_number chain)).length = 0
        ∧ total_size (evict_to_size cfg.ixfr_size (ixfr_data_size d)
          (evict_to_count cfg.ixfr_number chain)) + ixfr_data_size d
          > cfg.ixfr_size
    · rw [if_pos hcond]
      simp only []
      have hnil : evict_to_size cfg.ixfr_size (ixfr_data_size d)
          (evict_to_count cfg.ixfr_number chain) = [] :=
        List.length_eq_zero.mp hcond.1
      constructor
      · exact hnil
      · have := hcond.2
        rw [hnil] at this
        simpa [total_size] using this
    · rw [if_neg hcond] at hcanc
      simp only [] at hcanc
      rw [hc] at hcanc
      cases hcanc
  · intro hn hsz
    simp only [zone_ixfr_make_space, hd]
    rw [if_neg (by omega), if_pos hsz,
      evict_to_count_eq_drop (by omega : 1 ≤ cfg.ixfr_number)]

/-- A segment with the smallest possible key. -/
def seg_low : IxfrData :=
  { oldserial := 0, newserial := 1, newsoa := [], oldsoa := [],
    del := [], add := [] }

/-- A segment whose key is `2^31 + 1`: larger than 0 in plain unsigned
order but smaller than 0 under RFC 1982 comparison. -/
def seg_high : IxfrData :=
  { oldserial := 2147483649, newserial := 2, newsoa := [], oldsoa := [],
    del := [], add := [] }

/-- C2 counterexample: the chain built by `zone_ixfr_add` is ordered by the
plain unsigned comparison `ixfrcompare`, not by RFC 1982 comparison.
Inserting keys 0 and 2^31+1 yields the chain [0, 2^31+1], yet under
RFC 1982 comparison 2^31+1 is older than 0, so this chain is not sorted
under RFC 1982 order. -/
theorem claim_c2_counterexample :
    zone_ixfr_add_list (zone_ixfr_add_list [] seg_low) seg_high
      = [seg_low, seg_high]
    ∧ serial_lt seg_high.oldserial seg_low.oldserial = true
    ∧ serial_lt seg_low.oldserial seg_high.oldserial = false
    ∧ ¬ chain_sorted_rfc1982 [seg_low, seg_high] := by
  refine ⟨by decide, by decide, by decide, ?_⟩
  intro h
  rw [chain_sorted_rfc1982, List.pairwise_cons] at h
  have := h.1 seg_high (by simp)
  exact absurd this (by decide)

/-- C2 amended: the version chain is the ordered mapping keyed by each
segment's `old_serial` under plain unsigned 32-bit comparison
(`ixfrcompare`), not RFC 1982 comparison; `zone_ixfr_add` keys the segment
by its `old_serial` and preserves that order, and `zone_ixfr_find_serial`
is an exact match on the key. -/
theorem claim_c2 :
    (∀ (chain : List IxfrData) (d : IxfrData), chain_sorted chain →
      chain_sorted (zone_ixfr_add_list chain d))
    ∧ (∀ (chain : List IxfrData) (q : Nat) (r : IxfrData),
      zone_ixfr_find_serial chain q = some r → r.oldserial = q ∧ r ∈ chain)
    ∧ (∀ (chain : List IxfrData) (q : Nat), (∃ d ∈ chain, d.oldserial = q) →
      ∃ r, zone_ixfr_find_serial chain q = some r ∧ r.oldserial = q) :=
  ⟨fun _ d h => zone_ixfr_add_list_sorted d h,
    fun _ _ _ h => zone_ixfr_find_serial_some h,
    fun _ _ h => zone_ixfr_find_serial_complete h⟩

/-- Witness for the amended C2 at concrete inputs. -/
theorem claim_c2_witness :
    chain_sorted (zone_ixfr_add_list [seg_low] seg_high)
    ∧ (seg_low.oldserial = 0 ∧ seg_low ∈ [seg_low])
    ∧ (∃ r, zone_ixfr_find_serial [seg_low] 0 = some r ∧ r.oldserial = 0) :=
  ⟨claim_c2.1 [seg_low] seg_high (List.pairwise_singleton _ _),
    claim_c2.2.1 [seg_low] 0 seg_low (by decide),
    claim_c2.2.2 [seg_low] 0 ⟨seg_low, by simp, by decide⟩⟩

/-- Witness for C6 at concrete inputs: an `ixfr_number` of 0 cancels and
leaves the chain; a count budget of 2 with a zero byte budget evicts
nothing from a one-element chain; a count budget of 1 keeps the chain
strictly below 1 element. -/
theorem claim_c6_witness :
    zone_ixfr_make_space ⟨0, 0⟩ [seg_low]
        ⟨some seg_high, 0, 0, false⟩
      = ([seg_low], ixfr_store_cancel ⟨some seg_high, 0, 0, false⟩)
    ∧ zone_ixfr_make_space ⟨2, 0⟩ [seg_low]
        ⟨some seg_high, 0, 0, false⟩
      = ([seg_low].drop ([seg_low].length + 1 - 2),
        ⟨some seg_high, 0, 0, false⟩)
    ∧ (zone_ixfr_make_space ⟨1, 65⟩ []
        ⟨some seg_high, 0, 0, false⟩).1.length < 1 :=
  ⟨(claim_c6 ⟨0, 0⟩ [seg_low] ⟨some seg_high, 0, 0, false⟩ seg_high
      rfl rfl).1 rfl,
    (claim_c6 ⟨2, 0⟩ [seg_low] ⟨some seg_high, 0, 0, false⟩ seg_high
      rfl rfl).2.2.2.2 (by decide) rfl,
    (claim_c6 ⟨1, 65⟩ [] ⟨some seg_high, 0, 0, false⟩ seg_high
      rfl rfl).2.1 (by decide)⟩

/-! ## Builder operations (ixfr_store_...)

The packet-parsing collaborators (`dname_make_wire_from_packet`,
`rdata_wireformat_to_rdata_atoms`, buffer cursor movement) live outside
ixfr.c; an operation receives their outcome as an `Option` (`none` is the
parse-failure path, which cancels the builder), and re-emits the record in
canonical uncompressed form exactly as `store_soa` / `ixfr_putrr` do. -/

def TYPE_SOA : Nat := 6

def CLASS_IN : Nat := 1

def IXFR_STORE_INITIAL_SIZE : Nat := 4096

/-- `ixfr_rrs_make_space` capacity schedule: first allocation 4096, then
doubling, raised directly to the required size when doubling is still
insufficient.  A NULL run is exactly a run of capacity 0. -/
def ixfr_rrs_make_space (len cap added : Nat) : Nat :=
  if cap = 0 then
    if len + added > IXFR_STORE_INITIAL_SIZE then len + added
    else IXFR_STORE_INITIAL_SIZE
  else if len + added ≤ cap then cap
  else if len + added > cap * 2 then len + added
  else cap * 2

theorem ixfr_rrs_make_space_le (len cap added : Nat) :
    len + added ≤ ixfr_rrs_make_space len cap added := by
  rw [ixfr_rrs_make_space]
  simp only [IXFR_STORE_INITIAL_SIZE]
  by_cases h1 : cap = 0
  · rw [if_pos h1]
    by_cases h2 : len + added > 4096
    · rw [if_pos h2]
    · rw [if_neg h2]
      omega
  · rw [if_neg h1]
    by_cases h2 : len + added ≤ cap
    · rw [if_pos h2]
      exact h2
    · rw [if_neg h2]
      by_cases h3 : len + added > cap * 2
      · rw [if_pos h3]
      · rw [if_neg h3]
        omega

theorem ixfr_rrs_make_space_pos (len cap added : Nat) :
    0 < ixfr_rrs_make_space len cap added := by
  rw [ixfr_rrs_make_space]
  simp only [IXFR_STORE_INITIAL_SIZE]
  by_cases h1 : cap = 0
  · rw [if_pos h1]
    by_cases h2 : len + added > 4096
    · rw [if_pos h2]
      omega
    · rw [if_neg h2]
      omega
  · rw [if_neg h1]
    by_cases h2 : len + added ≤ cap
    · rw [if_pos h2]
      omega
    · rw [if_neg h2]
      by_cases h3 : len + added > cap * 2
      · rw [if_pos h3]
        omega
      · rw [if_neg h3]
        omega

/-- `ixfr_trim_capacity`: shrink a sealed run's allocation to its length
(a NULL run, capacity 0, is left alone). -/
def ixfr_trim_capacity (len cap : Nat) : Nat :=
  if cap = 0 then cap
  else if cap = len then cap
  else len

theorem ixfr_trim_capacity_of_pos {len cap : Nat} (h : 0 < cap) :
    ixfr_trim_capacity len cap = len := by
  rw [ixfr_trim_capacity, if_neg (by omega)]
  by_cases h2 : cap = len
  · rw [if_pos h2, h2]
  · rw [if_neg h2]

/-- The canonical SOA wire form written by `store_soa`: apex owner name,
type SOA, class IN, ttl, uncompressed rdlen, then the parsed rdata
fields. -/
structure SoaInfo where
  ttl : Nat
  primns : List Nat
  email : List Nat
  serial : Nat
  refresh : Nat
  retry : Nat
  expire : Nat
  minimum : Nat
  deriving Repr, DecidableEq, Inhabited

def store_soa (apex : List Nat) (s : SoaInfo) : List Nat :=
  apex ++ write_uint16 TYPE_SOA ++ write_uint16 CLASS_IN
    ++ write_uint32 s.ttl
    ++ write_uint16 (s.primns.length + s.email.length + 4 + 4 + 4 + 4 + 4)
    ++ s.primns ++ s.email ++ write_uint32 s.serial
    ++ write_uint32 s.refresh ++ write_uint32 s.retry
    ++ write_uint32 s.expire ++ write_uint32 s.minimum

/-- The uncompressed RR wire form written by `ixfr_putrr`. -/
def rr_wire (dname : List Nat) (type klass ttl : Nat) (rdata : List Nat) :
    List Nat :=
  dname ++ write_uint16 type ++ write_uint16 klass ++ write_uint32 ttl
    ++ write_uint16 rdata.length ++ rdata

/-- `ixfr_store_add_newsoa`: replace the stored new-SOA with the canonical
re-encoding of the parsed SOA (parse failure cancels; a no-op when already
cancelled). -/
def ixfr_store_add_newsoa (apex : List Nat) (st : IxfrStore)
    (parsed : Option SoaInfo) : IxfrStore :=
  if st.cancelled then st
  else
    match st.data with
    | none => st
    | some d =>
      match parsed with
      | none => ixfr_store_cancel st
      | some s => { st with data := some { d with newsoa := store_soa apex s } }

/-- `ixfr_store_add_oldsoa`: make space in the zone's chain (that the old
SOA arrived proves this transfer is an IXFR), then store the canonical old
SOA; parse failure cancels; a no-op when already cancelled. -/
def ixfr_store_add_oldsoa (cfg : IxfrConfig) (apex : List Nat)
    (chain : List IxfrData) (st : IxfrStore) (parsed : Option SoaInfo) :
    List IxfrData × IxfrStore :=
  if st.cancelled then (chain, st)
  else
    match zone_ixfr_make_space cfg chain st with
    | (chain2, st2) =>
      if st2.cancelled then (chain2, st2)
      else
        match st2.data with
        | none => (chain2, st2)
        | some d =>
          match parsed with
          | none => (chain2, ixfr_store_cancel st2)
          | some s =>
            (chain2, { st2 with data := some { d with oldsoa := store_soa apex s } })

/-- The appending core `ixfr_putrr`: grow the run's capacity, then append
the RR bytes; reports failure (never taken, since the grown capacity always
suffices) without writing. -/
def ixfr_putrr_run (buf : List Nat) (cap : Nat) (rr : List Nat) :
    (List Nat × Nat) × Bool :=
  if buf.length + rr.length > ixfr_rrs_make_space buf.length cap rr.length then
    ((buf, cap), false)
  else ((buf ++ rr, ixfr_rrs_make_space buf.length cap rr.length), true)

/-- `ixfr_store_putrr`: skip SOA records, make budget space (possibly
cancelling), parse the rdata (failure cancels), and append the uncompressed
RR to the selected run (`to_del` selects the deleted run, as
`ixfr_store_delrr` does; otherwise the added run, as `ixfr_store_addrr`). -/
def ixfr_store_putrr (cfg : IxfrConfig) (chain : List IxfrData)
    (st : IxfrStore) (dname : List Nat) (type klass ttl : Nat)
    (parsed_rdata : Option (List Nat)) (to_del : Bool) :
    List IxfrData × IxfrStore :=
  if st.cancelled then (chain, st)
  else if type = TYPE_SOA then (chain, st)
  else
    match zone_ixfr_make_space cfg chain st with
    | (chain2, st2) =>
      if st2.cancelled then (chain2, st2)
      else
        match st2.data with
        | none => (chain2, st2)
        | some d =>
          match parsed_rdata with
          | none => (chain2, ixfr_store_cancel st2)
          | some rdata =>
            if to_del then
              match ixfr_putrr_run d.del st2.del_capacity
                  (rr_wire dname type klass ttl rdata) with
              | ((buf2, cap2), ok) =>
                if ok then
                  (chain2,
                    { st2 with
                      data := some { d with del := buf2 },
                      del_capacity := cap2 })
                else (chain2, ixfr_store_cancel st2)
            else
              match ixfr_putrr_run d.add st2.add_capacity
                  (rr_wire dname type klass ttl rdata) with
              | ((buf2, cap2), ok) =>
                if ok then
                  (chain2,
                    { st2 with
                      data := some { d with add := buf2 },
                      add_capacity := cap2 })
                else (chain2, ixfr_store_cancel st2)

/-- `ixfr_store_delrr`. -/
def ixfr_store_delrr (cfg : IxfrConfig) (chain : List IxfrData)
    (st : IxfrStore) (dname : List Nat) (type klass ttl : Nat)
    (parsed_rdata : Option (List Nat)) : List IxfrData × IxfrStore :=
  ixfr_store_putrr cfg chain st dname type klass ttl parsed_rdata true

/-- `ixfr_store_addrr`. -/
def ixfr_store_addrr (cfg : IxfrConfig) (chain : List IxfrData)
    (st : IxfrStore) (dname : List Nat) (type klass ttl : Nat)
    (parsed_rdata : Option (List Nat)) : List IxfrData × IxfrStore :=
  ixfr_store_putrr cfg chain st dname type klass ttl parsed_rdata false

/-- The segment as sealed by `ixfr_store_finish`: the stored new-SOA
appended at the end of both the deleted and the added byte runs. -/
def ixfr_finish_data (d : IxfrData) : IxfrData :=
  { d with del := d.del ++ d.newsoa, add := d.add ++ d.newsoa }

/-- The builder after the two `ixfr_put_newsoa` calls and the two
`ixfr_trim_capacity` calls of `ixfr_store_finish`. -/
def finish_trimmed_store (st : IxfrStore) (d : IxfrData) : IxfrStore :=
  { st with
    data := some (ixfr_finish_data d),
    del_capacity := ixfr_trim_capacity (d.del.length + d.newsoa.length)
      (ixfr_rrs_make_space d.del.length st.del_capacity d.newsoa.length),
    add_capacity := ixfr_trim_capacity (d.add.length + d.newsoa.length)
      (ixfr_rrs_make_space d.add.length st.add_capacity d.newsoa.length) }

/-- `ixfr_store_finish`: free a cancelled builder; otherwise append the
stored new-SOA to both runs (`ixfr_put_newsoa` twice; its allocation-failure
cancel is dead code since the grown capacity always suffices), trim both
capacities, reserve budget via `zone_ixfr_make_space` (which may cancel),
and on success commit the segment with `zone_ixfr_add`. -/
def ixfr_store_finish (cfg : IxfrConfig) (chain : List IxfrData)
    (st : IxfrStore) : List IxfrData × IxfrStore :=
  if st.cancelled then (chain, { st with data := none })
  else
    match st.data with
    | none => (chain, st)
    | some d =>
      if d.del.length + d.newsoa.length
          > ixfr_rrs_make_space d.del.length st.del_capacity d.newsoa.length
        ∨ d.add.length + d.newsoa.length
          > ixfr_rrs_make_space d.add.length st.add_capacity d.newsoa.length
      then (chain, ixfr_store_cancel st)
      else
        match zone_ixfr_make_space cfg chain (finish_trimmed_store st d) with
        | (chain2, st3) =>
          if st3.cancelled then (chain2, { st3 with data := none })
          else (zone_ixfr_add_list chain2 (ixfr_finish_data d),
            { st3 with data := none })

/-- A concrete live segment under construction. -/
def seg_fin : IxfrData :=
  { oldserial := 10, newserial := 20, newsoa := [9, 9], oldsoa := [8],
    del := [1], add := [2] }

/-- C4 counterexample: a builder that is live (not cancelled) when finish is
called, but whose zone is configured with ixfr-number = 0: finish runs the
budget reservation, which cancels the builder, and commits nothing — the
chain stays empty, against the claim's unconditional "then commits the
segment". -/
theorem claim_c4_counterexample :
    (⟨some seg_fin, 0, 0, false⟩ : IxfrStore).cancelled = false
    ∧ (ixfr_store_finish ⟨0, 0⟩ []
        ⟨some seg_fin, 0, 0, false⟩).1 = []
    ∧ (ixfr_store_finish ⟨0, 0⟩ []
        ⟨some seg_fin, 0, 0, false⟩).2.cancelled = true :=
  ⟨rfl, by decide, by decide⟩

/-- C4 amended: for every builder not cancelled when finish is called,
finish appends the stored new-SOA to the end of both the deleted and the
added byte runs, trims both capacities to the new lengths, and then commits
the sealed segment to the zone's version chain — provided the final budget
reservation (`zone_ixfr_make_space`) does not cancel the builder; if it
does, the segment is discarded and only the reservation's evictions remain
in the chain. -/
theorem claim_c4 (cfg : IxfrConfig) (chain : List IxfrData) (st : IxfrStore)
    (d : IxfrData) (hd : st.data = some d) (hc : st.cancelled = false) :
    ((zone_ixfr_make_space cfg chain
        (finish_trimmed_store st d)).2.cancelled = false →
      ixfr_store_finish cfg chain st
        = (zone_ixfr_add_list
            (zone_ixfr_make_space cfg chain (finish_trimmed_store st d)).1
            (ixfr_finish_data d),
          { (zone_ixfr_make_space cfg chain
              (finish_trimmed_store st d)).2 with data := none }))
    ∧ ((zone_ixfr_make_space cfg chain
        (finish_trimmed_store st d)).2.cancelled = true →
      ixfr_store_finish cfg chain st
        = ((zone_ixfr_make_space cfg chain (finish_trimmed_store st d)).1,
          { (zone_ixfr_make_space cfg chain
              (finish_trimmed_store st d)).2 with data := none }))
    ∧ (ixfr_finish_data d).del = d.del ++ d.newsoa
    ∧ (ixfr_finish_data d).add = d.add ++ d.newsoa
    ∧ (finish_trimmed_store st d).del_capacity
        = (ixfr_finish_data d).del.length
    ∧ (finish_trimmed_store st d).add_capacity
        = (ixfr_finish_data d).add.length := by
  have hle1 := ixfr_rrs_make_space_le d.del.length st.del_capacity
    d.newsoa.length
  have hle2 := ixfr_rrs_make_space_le d.add.length st.add_capacity
    d.newsoa.length
  refine ⟨?_, ?_, rfl, rfl, ?_, ?_⟩
  · intro hnc
    rcases hms : zone_ixfr_make_space cfg chain (finish_trimmed_store st d)
      with ⟨chain2, st3⟩
    rw [hms] at hnc
    have hnc2 : st3.cancelled = false := hnc
    have hfin2 : ixfr_store_finish cfg chain st
        = if st3.cancelled then (chain2, { st3 with data := none })
          else (zone_ixfr_add_list chain2 (ixfr_finish_data d),
            { st3 with data := none }) := by
      rw [ixfr_store_finish, if_neg (by rw [hc]; exact Bool.false_ne_true)]
      simp only [hd]
      rw [if_neg (by omega), hms]
    rw [hfin2, if_neg (by rw [hnc2]; exact Bool.false_ne_true)]
  · intro hcanc
    rcases hms : zone_ixfr_make_space cfg chain (finish_trimmed_store st d)
      with ⟨chain2, st3⟩
    rw [hms] at hcanc
    have hcanc2 : st3.cancelled = true := hcanc
    have hfin2 : ixfr_store_finish cfg chain st
        = if st3.cancelled then (chain2, { st3 with data := none })
          else (zone_ixfr_add_list chain2 (ixfr_finish_data d),
            { st3 with data := none }) := by
      rw [ixfr_store_finish, if_neg (by rw [hc]; exact Bool.false_ne_true)]
      simp only [hd]
      rw [if_neg (by omega), hms]
    rw [hfin2, if_pos hcanc2]
  · rw [finish_trimmed_store]
    simp only [ixfr_finish_data, List.length_append]
    exact ixfr_trim_capacity_of_pos (ixfr_rrs_make_space_pos _ _ _)
  · rw [finish_trimmed_store]
    simp only [ixfr_finish_data, List.length_append]
    exact ixfr_trim_capacity_of_pos (ixfr_rrs_make_space_pos _ _ _)

/-- Witness for the amended C4: finishing a live builder under a permissive
budget (count 5, no byte cap) seals the runs with the new-SOA, trims the
capacities, and commits the segment. -/
theorem claim_c4_witness :
    ixfr_store_finish ⟨5, 0⟩ [] ⟨some seg_fin, 0, 0, false⟩
      = (zone_ixfr_add_list
          (zone_ixfr_make_space ⟨5, 0⟩ []
            (finish_trimmed_store ⟨some seg_fin, 0, 0, false⟩ seg_fin)).1
          (ixfr_finish_data seg_fin),
        { (zone_ixfr_make_space ⟨5, 0⟩ []
            (finish_trimmed_store ⟨some seg_fin, 0, 0, false⟩ seg_fin)).2
          with data := none })
    ∧ (ixfr_finish_data seg_fin).del = seg_fin.del ++ seg_fin.newsoa
    ∧ (finish_trimmed_store ⟨some seg_fin, 0, 0, false⟩ seg_fin).del_capacity
        = (ixfr_finish_data seg_fin).del.length :=
  ⟨(claim_c4 ⟨5, 0⟩ [] ⟨some seg_fin, 0, 0, false⟩ seg_fin rfl rfl).1
      (by decide),
    (claim_c4 ⟨5, 0⟩ [] ⟨some seg_fin, 0, 0, false⟩ seg_fin rfl rfl).2.2.1,
    (claim_c4 ⟨5, 0⟩ [] ⟨some seg_fin, 0, 0, false⟩ seg_fin rfl rfl).2.2.2.2.1⟩

/-- C10: every builder operation on a cancelled store is a no-op on both
the store (whose data is NULL after cancel) and the zone's chain; finish
merely frees the store and commits nothing; cancelling again changes
nothing further. -/
theorem claim_c10 (cfg : IxfrConfig) (apex : List Nat)
    (chain : List IxfrData) (st : IxfrStore) (hc : st.cancelled = true)
    (parsed : Option SoaInfo) (dname : List Nat) (type klass ttl : Nat)
    (rd : Option (List Nat)) :
    ixfr_store_add_newsoa apex st parsed = st
    ∧ ixfr_store_add_oldsoa cfg apex chain st parsed = (chain, st)
    ∧ ixfr_store_delrr cfg chain st dname type klass ttl rd = (chain, st)
    ∧ ixfr_store_addrr cfg chain st dname type klass ttl rd = (chain, st)
    ∧ ixfr_store_finish cfg chain st = (chain, { st with data := none })
    ∧ (st.data = none → ixfr_store_finish cfg chain st = (chain, st))
    ∧ ixfr_store_cancel (ixfr_store_cancel st) = ixfr_store_cancel st
    ∧ (ixfr_store_cancel st).data = none := by
  refine ⟨?_, ?_, ?_, ?_, ?_, ?_, ?_, rfl⟩
  · rw [ixfr_store_add_newsoa, if_pos hc]
  · rw [ixfr_store_add_oldsoa, if_pos hc]
  · rw [ixfr_store_delrr, ixfr_store_putrr, if_pos hc]
  · rw [ixfr_store_addrr, ixfr_store_putrr, if_pos hc]
  · rw [ixfr_store_finish, if_pos hc]
  · intro hdn
    rw [ixfr_store_finish, if_pos hc]
    cases st
    simp only [] at hdn
    simp [hdn]
  · simp [ixfr_store_cancel]

/-- Witness for C10 on a concrete cancelled store. -/
theorem claim_c10_witness :
    ixfr_store_add_newsoa [0] ⟨none, 3, 4, true⟩ none = ⟨none, 3, 4, true⟩
    ∧ ixfr_store_add_oldsoa ⟨2, 0⟩ [0] [seg_low] ⟨none, 3, 4, true⟩ none
      = ([seg_low], ⟨none, 3, 4, true⟩)
    ∧ ixfr_store_delrr ⟨2, 0⟩ [seg_low] ⟨none, 3, 4, true⟩ [0] 1 1 5 none
      = ([seg_low], ⟨none, 3, 4, true⟩)
    ∧ ixfr_store_addrr ⟨2, 0⟩ [seg_low] ⟨none, 3, 4, true⟩ [0] 1 1 5 none
      = ([seg_low], ⟨none, 3, 4, true⟩)
    ∧ ixfr_store_finish ⟨2, 0⟩ [seg_low] ⟨none, 3, 4, true⟩
      = ([seg_low], { (⟨none, 3, 4, true⟩ : IxfrStore) with data := none })
    ∧ ((⟨none, 3, 4, true⟩ : IxfrStore).data = none →
      ixfr_store_finish ⟨2, 0⟩ [seg_low] ⟨none, 3, 4, true⟩
        = ([seg_low], ⟨none, 3, 4, true⟩))
    ∧ ixfr_store_cancel (ixfr_store_cancel ⟨none, 3, 4, true⟩)
      = ixfr_store_cancel ⟨none, 3, 4, true⟩
    ∧ (ixfr_store_cancel (⟨none, 3, 4, true⟩ : IxfrStore)).data = none :=
  claim_c10 ⟨2, 0⟩ [0] [seg_low] ⟨none, 3, 4, true⟩ rfl none [0] 1 1 5 none

/-! ## Startup read of the numbered IXFR file family (`ixfr_read_from_file`)

Parsing a file's text goes through the host zone parser (zonec), outside
ixfr.c, so file `k` is modelled by its parse outcome: `none` when opening
or parsing fails, `some d` when its header and four sections parse into the
segment `d`.  `ixfr_data_read` keeps ixfr.c's own checks: skip when the
chain count already equals `ixfr_number`; the file's new-SOA serial must
equal the tracked destination serial (which its old-SOA then rewinds for
the next, older file); and a nonzero `ixfr_size` that the segment would
overflow discards it and stops.  The chain is `none` when the zone has no
`zone_ixfr` allocated yet (`zone_ixfr_create` makes an empty one on the
first successful read). -/

def ixfr_data_read (cfg : IxfrConfig) (ochain : Option (List IxfrData))
    (file : Option IxfrData) (dest_serial : Nat) :
    Option (List IxfrData × Nat) :=
  if ochain.isSome ∧ (ochain.getD []).length = cfg.ixfr_number then none
  else
    match file with
    | none => none
    | some d =>
      if d.newserial ≠ dest_serial then none
      else if cfg.ixfr_size ≠ 0
          ∧ total_size (ochain.getD []) + ixfr_data_size d
            > cfg.ixfr_size then none
      else some (zone_ixfr_add_list (ochain.getD []) d, d.oldserial)

/-- The read loop of `ixfr_read_from_file`: read file 1, 2, ... until a
read fails; the Bool records whether the loop was stopped by a failed
read. -/
def ixfr_read_loop (cfg : IxfrConfig) :
    List (Option IxfrData) → Option (List IxfrData) → Nat →
    Option (List IxfrData) × Nat × Bool
  | [], ochain, serial => (ochain, serial, false)
  | f :: fs, ochain, serial =>
    match ixfr_data_read cfg ochain f serial with
    | none => (ochain, serial, true)
    | some (chain2, serial2) => ixfr_read_loop cfg fs (some chain2) serial2

/-- `ixfr_read_from_file`: clear the existing chain (a zone without one
keeps none until a segment is read), then read the file family starting
from the zone's current serial. -/
def ixfr_read_from_file (cfg : IxfrConfig) (files : List (Option IxfrData))
    (ochain : Option (List IxfrData)) (current_serial : Nat) :
    Option (List IxfrData) × Nat × Bool :=
  ixfr_read_loop cfg files (ochain.map (fun _ => [])) current_serial

theorem ixfr_read_loop_append (cfg : IxfrConfig) :
    ∀ (xs ys : List (Option IxfrData)) (ochain : Option (List IxfrData))
    (serial : Nat), (ixfr_read_loop cfg xs ochain serial).2.2 = false →
    ixfr_read_loop cfg (xs ++ ys) ochain serial
      = ixfr_read_loop cfg ys (ixfr_read_loop cfg xs ochain serial).1
        (ixfr_read_loop cfg xs ochain serial).2.1 := by
  intro xs
  induction xs with
  | nil =>
    intro ys ochain serial _
    rw [List.nil_append, ixfr_read_loop]
  | cons f fs ih =>
    intro ys ochain serial hok
    rw [ixfr_read_loop] at hok
    rw [List.cons_append, ixfr_read_loop, ixfr_read_loop]
    rcases hr : ixfr_data_read cfg ochain f serial with _ | p
    · rw [hr] at hok
      simp at hok
    · rw [hr] at hok
      rcases p with ⟨chain2, serial2⟩
      exact ih ys (some chain2) serial2 hok

/-- C9: while reading the numbered file family at startup, if processing
file k+1 stops the loop — because the chain count already equals
`ixfr_number`, or because the segment it parses would push the aggregate
size over a nonzero `ixfr_size` (that segment is discarded) — then the
chain keeps exactly the segments read from files 1..k. -/
theorem claim_c9 (cfg : IxfrConfig) (good : List (Option IxfrData))
    (f : Option IxfrData) (fs : List (Option IxfrData))
    (c : List IxfrData) (s s0 : Nat)
    (hrun : ixfr_read_loop cfg good (some []) s0 = (some c, s, false))
    (hstop : (∃ d, f = some d ∧ d.newserial = s
        ∧ c.length ≠ cfg.ixfr_number
        ∧ cfg.ixfr_size ≠ 0
        ∧ total_size c + ixfr_data_size d > cfg.ixfr_size)
      ∨ c.length = cfg.ixfr_number) :
    ixfr_read_loop cfg (good ++ (f :: fs)) (some []) s0
      = (some c, s, true) := by
  rw [ixfr_read_loop_append cfg good (f :: fs) (some []) s0
    (by rw [hrun]), hrun]
  simp only []
  rw [ixfr_read_loop]
  have hnone : ixfr_data_read cfg (some c) f s = none := by
    rcases hstop with ⟨d, hf, hns, hcount, hsz, hover⟩ | hcount
    · rw [hf]
      have hred : ixfr_data_read cfg (some c) (some d) s
          = if (some c : Option (List IxfrData)).isSome
              ∧ c.length = cfg.ixfr_number then none
            else if d.newserial ≠ s then none
            else if cfg.ixfr_size ≠ 0
                ∧ total_size c + ixfr_data_size d > cfg.ixfr_size then none
            else some (zone_ixfr_add_list c d, d.oldserial) := rfl
      rw [hred, if_neg (by intro hx; exact hcount hx.2),
        if_neg (by omega), if_pos ⟨hsz, hover⟩]
    · rcases f with _ | d
      · have h1 : ixfr_data_read cfg (some c) none s
            = if (some c : Option (List IxfrData)).isSome
                ∧ c.length = cfg.ixfr_number then none
              else none := rfl
        rw [h1]
        simp
      · have h1 : ixfr_data_read cfg (some c) (some d) s
            = if (some c : Option (List IxfrData)).isSome
                ∧ c.length = cfg.ixfr_number then none
              else if d.newserial ≠ s then none
              else if cfg.ixfr_size ≠ 0
                  ∧ total_size c + ixfr_data_size d > cfg.ixfr_size then none
              else some (zone_ixfr_add_list c d, d.oldserial) := rfl
        rw [h1, if_pos ⟨rfl, hcount⟩]
  rw [hnone]

/-- An already-persisted segment of 64 budget bytes, serials 10 to 20. -/
def seg_r1 : IxfrData :=
  { oldserial := 10, newserial := 20, newsoa := [], oldsoa := [],
    del := [], add := [] }

/-- An older persisted segment of 64 budget bytes, serials 5 to 10. -/
def seg_r0 : IxfrData :=
  { oldserial := 5, newserial := 10, newsoa := [], oldsoa := [],
    del := [], add := [] }

/-- Witness for C9: under ixfr-size 100, reading file 1 (segment 10 to 20,
64 budget bytes) succeeds, and file 2 (segment 5 to 10, another 64 bytes)
would overflow, so the loop stops keeping exactly [seg 10 to 20]; under
ixfr-number 1 the second file is skipped by count. -/
theorem claim_c9_witness :
    ixfr_read_loop ⟨10, 100⟩ ([some seg_r1] ++ (some seg_r0 :: []))
      (some []) 20 = (some [seg_r1], 10, true)
    ∧ ixfr_read_loop ⟨1, 0⟩ ([some seg_r1] ++ (some seg_r0 :: []))
      (some []) 20 = (some [seg_r1], 10, true) :=
  ⟨claim_c9 ⟨10, 100⟩ [some seg_r1] (some seg_r0) [] [seg_r1] 10 20
      (by decide)
      (Or.inl ⟨seg_r0, rfl, by decide, by decide, by decide, by decide⟩),
    claim_c9 ⟨1, 0⟩ [some seg_r1] (some seg_r0) [] [seg_r1] 10 20
      (by decide) (Or.inr (by decide))⟩

/-! ## Response streamer (query_ixfr, ixfr_copy_rrs_into_packet)

The per-query stream state is the four byte-offsets into the current
segment, the recorded packet position of the opening new-SOA, plus the
current segment index into the chain (rbtree_next = successor in the
sorted list).  A packet is modelled by the answer-section bytes the
streamer appends (`out`), with `pos` the absolute buffer position
(`base` = header + question section).  The wire codec that frames the
packet around these bytes is outside ixfr.c. -/

/-- `IXFR_MAX_MESSAGE_LEN` = `MAX_COMPRESSION_OFFSET`; modelled from the
spec (the constant lives in packet.h): 16384. -/
def IXFR_MAX_MESSAGE_LEN : Nat := 16384

/-- `QHEADERSZ`: the 12-byte DNS header. -/
def QHEADERSZ : Nat := 12

/-- The clamp `query_ixfr` applies to `query->maxlen` on every call. -/
def query_ixfr_clamp_maxlen (maxlen : Nat) : Nat :=
  if maxlen > IXFR_MAX_MESSAGE_LEN then IXFR_MAX_MESSAGE_LEN else maxlen

/-- Stream counters of struct query: `ixfr_count_newsoa`,
`ixfr_count_oldsoa`, `ixfr_count_del`, `ixfr_count_add`,
`ixfr_pos_of_newsoa`. -/
structure SState where
  cns : Nat
  cos : Nat
  cd : Nat
  ca : Nat
  posn : Nat
  deriving Repr, DecidableEq, Inhabited

/-- Result of one del/add-section copying loop. -/
structure SecOut where
  cnt : Nat
  pos : Nat
  out : List Nat
  added : Nat
  completed : Bool
  deriving Repr, DecidableEq, Inhabited

/-- Result of one `ixfr_copy_rrs_into_packet` call. -/
structure CopyOut where
  st : SState
  pos : Nat
  out : List Nat
  added : Nat
  deriving Repr, DecidableEq, Inhabited

/-- The segment at index `idx` of the chain (the rbtree node the query's
`ixfr_data` points at). -/
def curData (chain : List IxfrData) (idx : Nat) : IxfrData :=
  chain.getD idx default

/-- `rbtree_last`: the last (newest) segment, the query's `ixfr_end_data`. -/
def endData (chain : List IxfrData) : IxfrData :=
  curData chain (chain.length - 1)

/-- The del/add copying loop of `ixfr_copy_rrs_into_packet`: copy whole RRs
(walked by `count_rr_length`) while each fits strictly under `maxlen`.
Fuel only makes the recursion structural; each copied RR advances `cnt` by
at least one byte, so `buf.length + 1` rounds always outlast the loop. -/
def copy_section_fuel (buf : List Nat) (maxlen : Nat) :
    Nat → Nat → Nat → List Nat → Nat → SecOut
  | 0, cnt, pos, out, added => ⟨cnt, pos, out, added, false⟩
  | fuel + 1, cnt, pos, out, added =>
    if cnt < buf.length then
      if count_rr_length buf cnt ≠ 0 ∧ pos < maxlen
          ∧ pos + count_rr_length buf cnt < maxlen then
        copy_section_fuel buf maxlen fuel
          (cnt + count_rr_length buf cnt) (pos + count_rr_length buf cnt)
          (out ++ (buf.drop cnt).take (count_rr_length buf cnt)) (added + 1)
      else ⟨cnt, pos, out, added, false⟩
    else ⟨cnt, pos, out, added, true⟩

def copy_section (buf : List Nat) (maxlen cnt pos : Nat) (out : List Nat)
    (added : Nat) : SecOut :=
  copy_section_fuel buf maxlen (buf.length + 1) cnt pos out added

theorem copy_section_fuel_congr {buf : List Nat} {maxlen : Nat} :
    ∀ (f1 f2 cnt pos : Nat) (out : List Nat) (added : Nat),
    buf.length - cnt < f1 → buf.length - cnt < f2 →
    copy_section_fuel buf maxlen f1 cnt pos out added
      = copy_section_fuel buf maxlen f2 cnt pos out added := by
  intro f1
  induction f1 with
  | zero =>
    intro f2 cnt pos out added h1 _
    omega
  | succ f1 ih =>
    intro f2 cnt pos out added h1 h2
    cases f2 with
    | zero => omega
    | succ f2 =>
      simp only [copy_section_fuel]
      by_cases hc1 : cnt < buf.length
      · rw [if_pos hc1, if_pos hc1]
        by_cases hc2 : count_rr_length buf cnt ≠ 0 ∧ pos < maxlen
            ∧ pos + count_rr_length buf cnt < maxlen
        · rw [if_pos hc2, if_pos hc2]
          have hrr : count_rr_length buf cnt ≠ 0 := hc2.1
          exact ih f2 (cnt + count_rr_length buf cnt)
            (pos + count_rr_length buf cnt)
            (out ++ (buf.drop cnt).take (count_rr_length buf cnt)) (added + 1)
            (by omega) (by omega)
        · rw [if_neg hc2, if_neg hc2]
      · rw [if_neg hc1, if_neg hc1]

theorem copy_section_fuel_eq {buf : List Nat} {maxlen f cnt pos : Nat}
    {out : List Nat} {added : Nat} (h : buf.length - cnt < f) :
    copy_section_fuel buf maxlen f cnt pos out added
      = copy_section buf maxlen cnt pos out added :=
  copy_section_fuel_congr f (buf.length + 1) cnt pos out added h (by omega)

theorem copy_section_fuel_props {buf : List Nat} {maxlen : Nat} :
    ∀ (fuel cnt pos : Nat) (out : List Nat) (added : Nat),
    cnt ≤ (copy_section_fuel buf maxlen fuel cnt pos out added).cnt
    ∧ (cnt ≤ buf.length →
      (copy_section_fuel buf maxlen fuel cnt pos out added).cnt ≤ buf.length)
    ∧ (copy_section_fuel buf maxlen fuel cnt pos out added).out
      = out ++ (buf.drop cnt).take
        ((copy_section_fuel buf maxlen fuel cnt pos out added).cnt - cnt)
    ∧ (copy_section_fuel buf maxlen fuel cnt pos out added).pos
      = pos + ((copy_section_fuel buf maxlen fuel cnt pos out added).cnt - cnt)
    ∧ ((copy_section_fuel buf maxlen fuel cnt pos out added).completed = true →
      buf.length ≤ (copy_section_fuel buf maxlen fuel cnt pos out added).cnt) := by
  intro fuel
  induction fuel with
  | zero =>
    intro cnt pos out added
    simp only [copy_section_fuel]
    exact ⟨le_refl _, fun h => h, by simp, by simp, fun h => by cases h⟩
  | succ fuel ih =>
    intro cnt pos out added
    simp only [copy_section_fuel]
    by_cases hc1 : cnt < buf.length
    · rw [if_pos hc1]
      by_cases hc2 : count_rr_length buf cnt ≠ 0 ∧ pos < maxlen
          ∧ pos + count_rr_length buf cnt < maxlen
      · rw [if_pos hc2]
        have hrr : count_rr_length buf cnt ≠ 0 := hc2.1
        have hbound := count_rr_length_le hrr
        rcases ih (cnt + count_rr_length buf cnt)
          (pos + count_rr_length buf cnt)
          (out ++ (buf.drop cnt).take (count_rr_length buf cnt)) (added + 1)
          with ⟨ih1, ih2, ih3, ih4, ih5⟩
        refine ⟨by omega, fun _ => ih2 (by omega), ?_, by omega, ih5⟩
        rw [ih3, List.append_assoc]
        congr 1
        have hsplit : (copy_section_fuel buf maxlen fuel
              (cnt + count_rr_length buf cnt)
              (pos + count_rr_length buf cnt)
              (out ++ (buf.drop cnt).take (count_rr_length buf cnt))
              (added + 1)).cnt - cnt
            = count_rr_length buf cnt
              + ((copy_section_fuel buf maxlen fuel
                (cnt + count_rr_length buf cnt)
                (pos + count_rr_length buf cnt)
                (out ++ (buf.drop cnt).take (count_rr_length buf cnt))
                (added + 1)).cnt - (cnt + count_rr_length buf cnt)) := by
          omega
        rw [hsplit, List.take_add]
        congr 1
        rw [List.drop_drop]
      · rw [if_neg hc2]
        exact ⟨le_refl _, fun h => h, by simp, by simp, fun h => by cases h⟩
    · rw [if_neg hc1]
      exact ⟨le_refl _, fun h => h, by simp, by simp, fun _ => by
        simp only []
        omega⟩

theorem copy_section_props (buf : List Nat) (maxlen cnt pos : Nat)
    (out : List Nat) (added : Nat) :
    cnt ≤ (copy_section buf maxlen cnt pos out added).cnt
    ∧ (cnt ≤ buf.length →
      (copy_section buf maxlen cnt pos out added).cnt ≤ buf.length)
    ∧ (copy_section buf maxlen cnt pos out added).out
      = out ++ (buf.drop cnt).take
        ((copy_section buf maxlen cnt pos out added).cnt - cnt)
    ∧ (copy_section buf maxlen cnt pos out added).pos
      = pos + ((copy_section buf maxlen cnt pos out added).cnt - cnt)
    ∧ ((copy_section buf maxlen cnt pos out added).completed = true →
      buf.length ≤ (copy_section buf maxlen cnt pos out added).cnt) :=
  copy_section_fuel_props (buf.length + 1) cnt pos out added

/-- The add-section phase of `ixfr_copy_rrs_into_packet`. -/
def copy_add_phase (d : IxfrData) (maxlen : Nat) (st : SState) (pos : Nat)
    (out : List Nat) (added : Nat) : CopyOut :=
  ⟨{ st with ca := (copy_section d.add maxlen st.ca pos out added).cnt },
    (copy_section d.add maxlen st.ca pos out added).pos,
    (copy_section d.add maxlen st.ca pos out added).out,
    (copy_section d.add maxlen st.ca pos out added).added⟩

/-- The del-section phase: stream deleted RRs; only when the run is
exhausted does control reach the add section (an unfit RR returns from the
whole call). -/
def copy_del_phase (d : IxfrData) (maxlen : Nat) (st : SState) (pos : Nat)
    (out : List Nat) (added : Nat) : CopyOut :=
  if (copy_section d.del maxlen st.cd pos out added).completed then
    copy_add_phase d maxlen
      { st with cd := (copy_section d.del maxlen st.cd pos out added).cnt }
      (copy_section d.del maxlen st.cd pos out added).pos
      (copy_section d.del maxlen st.cd pos out added).out
      (copy_section d.del maxlen st.cd pos out added).added
  else
    ⟨{ st with cd := (copy_section d.del maxlen st.cd pos out added).cnt },
      (copy_section d.del maxlen st.cd pos out added).pos,
      (copy_section d.del maxlen st.cd pos out added).out,
      (copy_section d.del maxlen st.cd pos out added).added⟩

/-- The old-SOA phase: write the current segment's old-SOA whole if it
still has to go out and fits, else return. -/
def copy_oldsoa_phase (d : IxfrData) (maxlen : Nat) (st : SState) (pos : Nat)
    (out : List Nat) (added : Nat) : CopyOut :=
  if st.cos < d.oldsoa.length then
    if pos < maxlen ∧ pos + d.oldsoa.length < maxlen then
      copy_del_phase d maxlen { st with cos := d.oldsoa.length }
        (pos + d.oldsoa.length) (out ++ d.oldsoa) (added + 1)
    else ⟨st, pos, out, added⟩
  else copy_del_phase d maxlen st pos out added

/-- `ixfr_copy_rrs_into_packet`: first the final segment's new-SOA (once
per stream, recording its end position in `posn`), then the current
segment's old-SOA, deleted run, added run.  `ed` is the query's
`ixfr_end_data`, `d` its current `ixfr_data`. -/
def ixfr_copy_rrs_into_packet (ed d : IxfrData) (maxlen : Nat) (st : SState)
    (pos : Nat) (out : List Nat) (added : Nat) : CopyOut :=
  if st.cns < ed.newsoa.length then
    if pos < maxlen ∧ pos + ed.newsoa.length < maxlen then
      copy_oldsoa_phase d maxlen
        { st with cns := ed.newsoa.length, posn := pos + ed.newsoa.length }
        (pos + ed.newsoa.length) (out ++ ed.newsoa) (added + 1)
    else ⟨st, pos, out, added⟩
  else copy_oldsoa_phase d maxlen st pos out added

theorem copy_add_phase_props (d : IxfrData) (maxlen : Nat) (st : SState)
    (pos : Nat) (out : List Nat) (added : Nat) {r : CopyOut}
    (hr : copy_add_phase d maxlen st pos out added = r) :
    r.st.cns = st.cns ∧ r.st.cos = st.cos ∧ r.st.cd = st.cd
    ∧ r.st.posn = st.posn
    ∧ st.ca ≤ r.st.ca ∧ (st.ca ≤ d.add.length → r.st.ca ≤ d.add.length)
    ∧ r.out = out ++ (d.add.drop st.ca).take (r.st.ca - st.ca)
    ∧ r.pos = pos + (r.st.ca - st.ca) := by
  rcases copy_section_props d.add maxlen st.ca pos out added
    with ⟨h1, h2, h3, h4, _⟩
  subst hr
  exact ⟨rfl, rfl, rfl, rfl, h1, h2, h3, h4⟩

theorem copy_del_phase_props (d : IxfrData) (maxlen : Nat) (st : SState)
    (pos : Nat) (out : List Nat) (added : Nat) {r : CopyOut}
    (hr : copy_del_phase d maxlen st pos out added = r) :
    r.st.cns = st.cns ∧ r.st.cos = st.cos ∧ r.st.posn = st.posn
    ∧ st.cd ≤ r.st.cd ∧ (st.cd ≤ d.del.length → r.st.cd ≤ d.del.length)
    ∧ st.ca ≤ r.st.ca ∧ (st.ca ≤ d.add.length → r.st.ca ≤ d.add.length)
    ∧ (r.st.ca ≠ st.ca → d.del.length ≤ r.st.cd)
    ∧ r.out = out ++ ((d.del.drop st.cd).take (r.st.cd - st.cd)
        ++ (d.add.drop st.ca).take (r.st.ca - st.ca))
    ∧ r.pos = pos + ((r.st.cd - st.cd) + (r.st.ca - st.ca)) := by
  rcases copy_section_props d.del maxlen st.cd pos out added
    with ⟨h1, h2, h3, h4, h5⟩
  rw [copy_del_phase] at hr
  by_cases hcomp : (copy_section d.del maxlen st.cd pos out added).completed
    = true
  · rw [if_pos hcomp] at hr
    rcases copy_add_phase_props d maxlen
      { st with cd := (copy_section d.del maxlen st.cd pos out added).cnt }
      (copy_section d.del maxlen st.cd pos out added).pos
      (copy_section d.del maxlen st.cd pos out added).out
      (copy_section d.del maxlen st.cd pos out added).added hr
      with ⟨a1, a2, a3, a4, a5, a6, a7, a8⟩
    have b1 : r.st.cns = st.cns := a1
    have b2 : r.st.cos = st.cos := a2
    have b3 : r.st.cd
        = (copy_section d.del maxlen st.cd pos out added).cnt := a3
    have b4 : r.st.posn = st.posn := a4
    have b5 : st.ca ≤ r.st.ca := a5
    have b6 : st.ca ≤ d.add.length → r.st.ca ≤ d.add.length := a6
    have b7 : r.out = (copy_section d.del maxlen st.cd pos out added).out
        ++ (d.add.drop st.ca).take (r.st.ca - st.ca) := a7
    have b8 : r.pos = (copy_section d.del maxlen st.cd pos out added).pos
        + (r.st.ca - st.ca) := a8
    have hdel := h5 hcomp
    refine ⟨b1, b2, b4, by omega, ?_, b5, b6, fun _ => by omega, ?_, ?_⟩
    · intro hle
      rw [b3]
      exact h2 hle
    · rw [b7, h3, List.append_assoc]
      congr 2
      rw [b3]
    · omega
  · rw [if_neg hcomp] at hr
    subst hr
    refine ⟨rfl, rfl, rfl, h1, h2, le_refl _, fun h => h, ?_, ?_, ?_⟩
    · intro hne
      exact absurd rfl hne
    · show (copy_section d.del maxlen st.cd pos out added).out
        = out ++ ((d.del.drop st.cd).take
            ((copy_section d.del maxlen st.cd pos out added).cnt - st.cd)
          ++ (d.add.drop st.ca).take (st.ca - st.ca))
      rw [h3]
      simp
    · show (copy_section d.del maxlen st.cd pos out added).pos
        = pos + (((copy_section d.del maxlen st.cd pos out added).cnt - st.cd)
          + (st.ca - st.ca))
      omega

theorem copy_oldsoa_phase_props (d : IxfrData) (maxlen : Nat) (st : SState)
    (pos : Nat) (out : List Nat) (added : Nat) {r : CopyOut}
    (hcos : st.cos = 0 ∨ st.cos = d.oldsoa.length)
    (hr : copy_oldsoa_phase d maxlen st pos out added = r) :
    r.st.cns = st.cns ∧ r.st.posn = st.posn
    ∧ st.cos ≤ r.st.cos ∧ (r.st.cos = st.cos ∨ r.st.cos = d.oldsoa.length)
    ∧ st.cd ≤ r.st.cd ∧ (st.cd ≤ d.del.length → r.st.cd ≤ d.del.length)
    ∧ st.ca ≤ r.st.ca ∧ (st.ca ≤ d.add.length → r.st.ca ≤ d.add.length)
    ∧ (r.st.ca ≠ st.ca → d.del.length ≤ r.st.cd)
    ∧ ((r.st.cd ≠ st.cd ∨ r.st.ca ≠ st.ca) → d.oldsoa.length ≤ r.st.cos)
    ∧ r.out = out ++ ((d.oldsoa.drop st.cos).take (r.st.cos - st.cos)
        ++ ((d.del.drop st.cd).take (r.st.cd - st.cd)
          ++ (d.add.drop st.ca).take (r.st.ca - st.ca)))
    ∧ r.pos = pos + ((r.st.cos - st.cos)
        + ((r.st.cd - st.cd) + (r.st.ca - st.ca))) := by
  rw [copy_oldsoa_phase] at hr
  by_cases h1 : st.cos < d.oldsoa.length
  · have hcos0 : st.cos = 0 := by
      rcases hcos with h | h
      · exact h
      · omega
    rw [if_pos h1] at hr
    by_cases h2 : pos < maxlen ∧ pos + d.oldsoa.length < maxlen
    · rw [if_pos h2] at hr
      rcases copy_del_phase_props d maxlen
        { st with cos := d.oldsoa.length } (pos + d.oldsoa.length)
        (out ++ d.oldsoa) (added + 1) hr
        with ⟨c1, c2, c3, c4, c5, c6, c7, c8, c9, c10⟩
      have b1 : r.st.cns = st.cns := c1
      have b2 : r.st.cos = d.oldsoa.length := c2
      have b3 : r.st.posn = st.posn := c3
      have b4 : st.cd ≤ r.st.cd := c4
      have b5 : st.cd ≤ d.del.length → r.st.cd ≤ d.del.length := c5
      have b6 : st.ca ≤ r.st.ca := c6
      have b7 : st.ca ≤ d.add.length → r.st.ca ≤ d.add.length := c7
      have b8 : r.st.ca ≠ st.ca → d.del.length ≤ r.st.cd := c8
      have b9 : r.out = (out ++ d.oldsoa)
          ++ ((d.del.drop st.cd).take (r.st.cd - st.cd)
            ++ (d.add.drop st.ca).take (r.st.ca - st.ca)) := c9
      have b10 : r.pos = (pos + d.oldsoa.length)
          + ((r.st.cd - st.cd) + (r.st.ca - st.ca)) := c10
      refine ⟨b1, b3, by omega, Or.inr b2, b4, b5, b6, b7, b8,
        fun _ => by omega, ?_, by omega⟩
      rw [b9, List.append_assoc]
      congr 1
      rw [hcos0, b2]
      simp
    · rw [if_neg h2] at hr
      subst hr
      refine ⟨rfl, rfl, le_refl _, Or.inl rfl, le_refl _, fun h => h,
        le_refl _, fun h => h, ?_, ?_, by simp, by simp⟩
      · intro hne
        exact absurd rfl hne
      · intro hne
        rcases hne with hne | hne
        · exact absurd rfl hne
        · exact absurd rfl hne
  · rw [if_neg h1] at hr
    rcases copy_del_phase_props d maxlen st pos out added hr
      with ⟨c1, c2, c3, c4, c5, c6, c7, c8, c9, c10⟩
    refine ⟨c1, c3, by omega, Or.inl c2, c4, c5, c6, c7, c8,
      fun _ => by omega, ?_, by omega⟩
    rw [c9, c2]
    simp

theorem ixfr_copy_props (ed d : IxfrData) (maxlen : Nat) (st : SState)
    (pos : Nat) (out : List Nat) (added : Nat) {r : CopyOut}
    (hcns : st.cns = 0 ∨ st.cns = ed.newsoa.length)
    (hcos : st.cos = 0 ∨ st.cos = d.oldsoa.length)
    (hr : ixfr_copy_rrs_into_packet ed d maxlen st pos out added = r) :
    (st.cns ≤ r.st.cns ∧ (r.st.cns = st.cns ∨ r.st.cns = ed.newsoa.length))
    ∧ (st.cos ≤ r.st.cos ∧ (r.st.cos = st.cos ∨ r.st.cos = d.oldsoa.length))
    ∧ (st.cd ≤ r.st.cd ∧ (st.cd ≤ d.del.length → r.st.cd ≤ d.del.length))
    ∧ (st.ca ≤ r.st.ca ∧ (st.ca ≤ d.add.length → r.st.ca ≤ d.add.length))
    ∧ (r.st.cos ≠ st.cos → ed.newsoa.length ≤ r.st.cns)
    ∧ ((r.st.cd ≠ st.cd ∨ r.st.ca ≠ st.ca) →
      d.oldsoa.length ≤ r.st.cos ∧ ed.newsoa.length ≤ r.st.cns)
    ∧ (r.st.ca ≠ st.ca → d.del.length ≤ r.st.cd)
    ∧ r.out = out ++ ((ed.newsoa.drop st.cns).take (r.st.cns - st.cns)
        ++ ((d.oldsoa.drop st.cos).take (r.st.cos - st.cos)
          ++ ((d.del.drop st.cd).take (r.st.cd - st.cd)
            ++ (d.add.drop st.ca).take (r.st.ca - st.ca))))
    ∧ r.pos = pos + ((r.st.cns - st.cns) + ((r.st.cos - st.cos)
        + ((r.st.cd - st.cd) + (r.st.ca - st.ca))))
    ∧ (st.cns = ed.newsoa.length → r.st.posn = st.posn)
    ∧ (r.st.cns < ed.newsoa.length → r = ⟨st, pos, out, added⟩) := by
  rw [ixfr_copy_rrs_into_packet] at hr
  by_cases h1 : st.cns < ed.newsoa.length
  · have hcns0 : st.cns = 0 := by
      rcases hcns with h | h
      · exact h
      · omega
    rw [if_pos h1] at hr
    by_cases h2 : pos < maxlen ∧ pos + ed.newsoa.length < maxlen
    · rw [if_pos h2] at hr
      rcases copy_oldsoa_phase_props d maxlen
        { st with cns := ed.newsoa.length, posn := pos + ed.newsoa.length }
        (pos + ed.newsoa.length) (out ++ ed.newsoa) (added + 1) hcos hr
        with ⟨c1, c2, c3, c4, c5, c6, c7, c8, c9, c10, c11, c12⟩
      have b1 : r.st.cns = ed.newsoa.length := c1
      have b2 : r.st.posn = pos + ed.newsoa.length := c2
      have b3 : st.cos ≤ r.st.cos := c3
      have b4 : r.st.cos = st.cos ∨ r.st.cos = d.oldsoa.length := c4
      have b5 : st.cd ≤ r.st.cd := c5
      have b6 : st.cd ≤ d.del.length → r.st.cd ≤ d.del.length := c6
      have b7 : st.ca ≤ r.st.ca := c7
      have b8 : st.ca ≤ d.add.length → r.st.ca ≤ d.add.length := c8
      have b9 : r.st.ca ≠ st.ca → d.del.length ≤ r.st.cd := c9
      have b10 : (r.st.cd ≠ st.cd ∨ r.st.ca ≠ st.ca) →
          d.oldsoa.length ≤ r.st.cos := c10
      have b11 : r.out = (out ++ ed.newsoa)
          ++ ((d.oldsoa.drop st.cos).take (r.st.cos - st.cos)
            ++ ((d.del.drop st.cd).take (r.st.cd - st.cd)
              ++ (d.add.drop st.ca).take (r.st.ca - st.ca))) := c11
      have b12 : r.pos = (pos + ed.newsoa.length)
          + ((r.st.cos - st.cos)
            + ((r.st.cd - st.cd) + (r.st.ca - st.ca))) := c12
      refine ⟨⟨by omega, Or.inr b1⟩, ⟨b3, b4⟩, ⟨b5, b6⟩, ⟨b7, b8⟩,
        fun _ => by omega, fun h => ⟨b10 h, by omega⟩, b9, ?_, by omega,
        fun h => by omega, fun h => by omega⟩
      rw [b11, List.append_assoc]
      congr 1
      rw [hcns0, b1]
      simp
    · rw [if_neg h2] at hr
      subst hr
      refine ⟨⟨le_refl _, Or.inl rfl⟩, ⟨le_refl _, Or.inl rfl⟩,
        ⟨le_refl _, fun h => h⟩, ⟨le_refl _, fun h => h⟩, ?_, ?_, ?_,
        by simp, by simp, fun h => by omega, fun _ => rfl⟩
      · intro hne
        exact absurd rfl hne
      · intro hne
        rcases hne with hne | hne
        · exact absurd rfl hne
        · exact absurd rfl hne
      · intro hne
        exact absurd rfl hne
  · rw [if_neg h1] at hr
    rcases copy_oldsoa_phase_props d maxlen st pos out added hcos hr
      with ⟨c1, c2, c3, c4, c5, c6, c7, c8, c9, c10, c11, c12⟩
    refine ⟨⟨by omega, Or.inl c1⟩, ⟨c3, c4⟩, ⟨c5, c6⟩, ⟨c7, c8⟩,
      fun _ => by omega, fun h => ⟨c10 h, by omega⟩, c9, ?_, by omega,
      fun _ => c2, fun h => by omega⟩
    rw [c11, c1]
    simp

/-- One segment's contribution to the stream after the first: its old-SOA
is skipped (the previous segment's add run already ends in an SOA with that
serial), so only the deleted and added runs are emitted. -/
def segPayload (d : IxfrData) : List Nat :=
  d.del ++ d.add

/-- The answer bytes the streamer has emitted so far, as a function of the
stream counters: the opening new-SOA prefix, the start segment's old-SOA /
del / add, the payloads of fully-emitted middle segments, and the partial
del / add of the current segment. -/
def emittedSpec (chain : List IxfrData) (start idx : Nat) (st : SState) :
    List Nat :=
  (endData chain).newsoa.take st.cns ++
    (if idx = start then
      (curData chain start).oldsoa.take st.cos
        ++ ((curData chain start).del.take st.cd
          ++ (curData chain start).add.take st.ca)
    else
      (curData chain start).oldsoa ++ (segPayload (curData chain start)
        ++ ((((chain.drop (start + 1)).take (idx - (start + 1))).map
            segPayload).flatten
          ++ ((curData chain idx).del.take st.cd
            ++ (curData chain idx).add.take st.ca))))

/-- Stream-state invariant: counters advance in emission order and stay
within their buffers; segments before the current one are fully emitted. -/
def StWF (chain : List IxfrData) (start idx : Nat) (st : SState) : Prop :=
  start ≤ idx ∧ idx < chain.length
  ∧ (st.cns = 0 ∨ st.cns = (endData chain).newsoa.length)
  ∧ (st.cns < (endData chain).newsoa.length →
      idx = start ∧ st.cos = 0 ∧ st.cd = 0 ∧ st.ca = 0)
  ∧ (st.cos = 0 ∨ st.cos = (curData chain idx).oldsoa.length)
  ∧ (start < idx → st.cos = (curData chain idx).oldsoa.length)
  ∧ (st.cos < (curData chain idx).oldsoa.length → st.cd = 0 ∧ st.ca = 0)
  ∧ st.cd ≤ (curData chain idx).del.length
  ∧ (st.cd < (curData chain idx).del.length → st.ca = 0)
  ∧ st.ca ≤ (curData chain idx).add.length

theorem take_split {α : Type} (l : List α) (a b : Nat) (h : a ≤ b) :
    l.take b = l.take a ++ (l.drop a).take (b - a) := by
  have := List.take_add l a (b - a)
  rw [show a + (b - a) = b by omega] at this
  exact this


/-- Advancing the stream counters (monotonically, in emission order) grows
the emitted-bytes specification by exactly the four freshly-copied slices. -/
theorem spec_step (chain : List IxfrData) (start idx : Nat) (st st2 : SState)
    (hwf : StWF chain start idx st)
    (m1 : st.cns ≤ st2.cns) (m2 : st.cos ≤ st2.cos) (m3 : st.cd ≤ st2.cd)
    (m4 : st.ca ≤ st2.ca)
    (g1 : st2.cns ≠ st.cns → st.cns < (endData chain).newsoa.length)
    (g2 : st2.cos ≠ st.cos → st.cos < (curData chain idx).oldsoa.length)
    (g3 : st2.cd ≠ st.cd → st.cd < (curData chain idx).del.length) :
    emittedSpec chain start idx st2
      = emittedSpec chain start idx st
        ++ (((endData chain).newsoa.drop st.cns).take (st2.cns - st.cns)
          ++ (((curData chain idx).oldsoa.drop st.cos).take (st2.cos - st.cos)
            ++ (((curData chain idx).del.drop st.cd).take (st2.cd - st.cd)
              ++ ((curData chain idx).add.drop st.ca).take
                (st2.ca - st.ca)))) := by
  obtain ⟨hw1, hw2, hw3, hw4, hw5, hw6, hw7, hw8, hw9, hw10⟩ := hwf
  have F1 : st2.cns = st.cns
      ∨ (idx = start ∧ st.cos = 0 ∧ st.cd = 0 ∧ st.ca = 0) := by
    by_cases h : st2.cns = st.cns
    · exact Or.inl h
    · exact Or.inr (hw4 (g1 h))
  have F2 : st2.cos = st.cos ∨ (st.cd = 0 ∧ st.ca = 0) := by
    by_cases h : st2.cos = st.cos
    · exact Or.inl h
    · exact Or.inr (hw7 (g2 h))
  have F3 : st2.cd = st.cd ∨ st.ca = 0 := by
    by_cases h : st2.cd = st.cd
    · exact Or.inl h
    · exact Or.inr (hw9 (g3 h))
  by_cases hidx : idx = start
  · subst hidx
    simp only [emittedSpec, if_pos rfl]
    rw [take_split (endData chain).newsoa st.cns st2.cns m1,
      take_split (curData chain idx).oldsoa st.cos st2.cos m2,
      take_split (curData chain idx).del st.cd st2.cd m3,
      take_split (curData chain idx).add st.ca st2.ca m4]
    rcases F1 with f1 | ⟨_, f1b, f1c, f1d⟩
    · rw [f1, Nat.sub_self]
      rcases F2 with f2 | ⟨f2a, f2b⟩
      · rw [f2, Nat.sub_self]
        rcases F3 with f3 | f3
        · rw [f3, Nat.sub_self]
          simp [List.append_assoc]
        · rw [f3]
          simp [List.append_assoc]
      · rw [f2a, f2b]
        simp [List.append_assoc]
    · rw [f1b, f1c, f1d]
      simp [List.append_assoc]
  · have hstart : start < idx := by
      rcases Nat.lt_or_ge start idx with h | h
      · exact h
      · exact absurd (by omega : idx = start) hidx
    have hlt : ¬ st.cns < (endData chain).newsoa.length := by
      intro h
      exact hidx (hw4 h).1
    have hcosfull : st.cos = (curData chain idx).oldsoa.length := hw6 hstart
    have hcns2 : st2.cns = st.cns := by
      by_cases h : st2.cns = st.cns
      · exact h
      · exact absurd (g1 h) hlt
    have hcos2 : st2.cos = st.cos := by
      by_cases h : st2.cos = st.cos
      · exact h
      · exact absurd (g2 h) (by omega)
    simp only [emittedSpec, if_neg hidx]
    rw [hcns2, hcos2, Nat.sub_self, Nat.sub_self,
      take_split (curData chain idx).del st.cd st2.cd m3,
      take_split (curData chain idx).add st.ca st2.ca m4]
    rcases F3 with f3 | f3
    · rw [f3, Nat.sub_self]
      simp [List.append_assoc]
    · rw [f3]
      simp [List.append_assoc]

/-- One `ixfr_copy_rrs_into_packet` call preserves the stream invariant,
appends to the packet exactly the bytes by which the emitted-bytes
specification grows, and advances the position by that many bytes. -/
theorem copy_spec (chain : List IxfrData) (start idx maxlen pos : Nat)
    (st : SState) (out : List Nat) (added : Nat) {r : CopyOut}
    (hwf : StWF chain start idx st)
    (hr : ixfr_copy_rrs_into_packet (endData chain) (curData chain idx)
      maxlen st pos out added = r) :
    StWF chain start idx r.st
    ∧ ∃ δ : List Nat, r.out = out ++ δ
      ∧ emittedSpec chain start idx r.st
        = emittedSpec chain start idx st ++ δ
      ∧ r.pos = pos + δ.length := by
  obtain ⟨hw1, hw2, hw3, hw4, hw5, hw6, hw7, hw8, hw9, hw10⟩ := hwf
  rcases ixfr_copy_props (endData chain) (curData chain idx) maxlen st pos
    out added hw3 hw5 hr
    with ⟨⟨p1a, p1b⟩, ⟨p2a, p2b⟩, ⟨p3a, p3b⟩, ⟨p4a, p4b⟩, p5, p6, p7, p8,
      p9, _, _⟩
  have g1 : r.st.cns ≠ st.cns → st.cns < (endData chain).newsoa.length := by
    intro h
    rcases p1b with h1 | h1
    · exact absurd h1 h
    · rcases hw3 with h2 | h2 <;> omega
  have g2 : r.st.cos ≠ st.cos →
      st.cos < (curData chain idx).oldsoa.length := by
    intro h
    rcases p2b with h1 | h1
    · exact absurd h1 h
    · rcases hw5 with h2 | h2 <;> omega
  have g3 : r.st.cd ≠ st.cd → st.cd < (curData chain idx).del.length := by
    intro h
    have := p3b hw8
    omega
  have hwf2 : StWF chain start idx r.st := by
    refine ⟨hw1, hw2, ?_, ?_, ?_, ?_, ?_, p3b hw8, ?_, p4b hw10⟩
    · rcases p1b with h | h
      · rw [h]
        exact hw3
      · exact Or.inr h
    · intro h
      have hcnseq : r.st.cns = st.cns := by
        rcases p1b with h1 | h1
        · exact h1
        · omega
      obtain ⟨he, hc1, hc2, hc3⟩ := hw4 (by omega)
      refine ⟨he, ?_, ?_, ?_⟩
      · by_cases hq : r.st.cos = st.cos
        · omega
        · have := p5 hq
          omega
      · by_cases hq : r.st.cd = st.cd
        · omega
        · have := (p6 (Or.inl hq)).2
          omega
      · by_cases hq : r.st.ca = st.ca
        · omega
        · have := (p6 (Or.inr hq)).2
          omega
    · rcases p2b with h | h
      · rw [h]
        exact hw5
      · exact Or.inr h
    · intro hs
      have := hw6 hs
      rcases p2b with h | h
      · omega
      · exact h
    · intro h
      have hcoseq : r.st.cos = st.cos := by
        rcases p2b with h1 | h1
        · exact h1
        · omega
      obtain ⟨hc1, hc2⟩ := hw7 (by omega)
      constructor
      · by_cases hq : r.st.cd = st.cd
        · omega
        · have := (p6 (Or.inl hq)).1
          omega
      · by_cases hq : r.st.ca = st.ca
        · omega
        · have := (p6 (Or.inr hq)).1
          omega
    · intro h
      have hcaeq : r.st.ca = st.ca := by
        by_cases hq : r.st.ca = st.ca
        · exact hq
        · have := p7 hq
          omega
      rw [hcaeq]
      exact hw9 (by omega)
  refine ⟨hwf2,
    ((endData chain).newsoa.drop st.cns).take (r.st.cns - st.cns)
      ++ (((curData chain idx).oldsoa.drop st.cos).take (r.st.cos - st.cos)
        ++ (((curData chain idx).del.drop st.cd).take (r.st.cd - st.cd)
          ++ ((curData chain idx).add.drop st.ca).take (r.st.ca - st.ca))),
    p8, ?_, ?_⟩
  · exact spec_step chain start idx st r.st
      ⟨hw1, hw2, hw3, hw4, hw5, hw6, hw7, hw8, hw9, hw10⟩
      p1a p2a p3a p4a g1 g2 g3
  · have l1 : (((endData chain).newsoa.drop st.cns).take
        (r.st.cns - st.cns)).length = r.st.cns - st.cns := by
      rw [List.length_take, List.length_drop]
      rcases p1b with h | h <;> omega
    have l2 : (((curData chain idx).oldsoa.drop st.cos).take
        (r.st.cos - st.cos)).length = r.st.cos - st.cos := by
      rw [List.length_take, List.length_drop]
      rcases p2b with h | h
      · omega
      · rcases hw5 with h2 | h2 <;> omega
    have l3 : (((curData chain idx).del.drop st.cd).take
        (r.st.cd - st.cd)).length = r.st.cd - st.cd := by
      rw [List.length_take, List.length_drop]
      have := p3b hw8
      omega
    have l4 : (((curData chain idx).add.drop st.ca).take
        (r.st.ca - st.ca)).length = r.st.ca - st.ca := by
      rw [List.length_take, List.length_drop]
      have := p4b hw10
      omega
    simp only [List.length_append]
    omega

theorem take_succ_getD {α : Type} [Inhabited α] (l : List α) (n : Nat)
    (h : n < l.length) : l.take (n + 1) = l.take n ++ [l.getD n default] := by
  rw [List.take_succ]
  congr 1
  rw [List.getElem?_eq_getElem h, List.getD_eq_getElem l default h]
  rfl

theorem drop_getD {α : Type} [Inhabited α] (l : List α) (m n : Nat)
    (h : m + n < l.length) :
    (l.drop m).getD n default = l.getD (m + n) default := by
  have h2 : n < (l.drop m).length := by
    rw [List.length_drop]
    omega
  rw [List.getD_eq_getElem _ default h2, List.getD_eq_getElem _ default h]
  exact List.getElem_drop _

theorem drop_eq_getD_cons {α : Type} [Inhabited α] (l : List α) (n : Nat)
    (h : n < l.length) : l.drop n = l.getD n default :: l.drop (n + 1) := by
  rw [List.getD_eq_getElem l default h]
  exact List.drop_eq_getElem_cons h

/-- When the current segment's add run is exhausted (and nonempty), the
query loop's move to the next segment — presetting `ixfr_count_oldsoa` to
the next segment's old-SOA length and zeroing the del/add counters —
preserves the invariant and leaves the emitted-bytes specification
unchanged. -/
theorem advance_spec (chain : List IxfrData) (start idx : Nat) (st : SState)
    (hwf : StWF chain start idx st)
    (hfull : (curData chain idx).add.length ≤ st.ca)
    (hadd : (curData chain idx).add.length ≠ 0)
    (hnext : idx + 1 < chain.length) :
    StWF chain start (idx + 1)
      ⟨st.cns, (curData chain (idx + 1)).oldsoa.length, 0, 0, st.posn⟩
    ∧ emittedSpec chain start (idx + 1)
        ⟨st.cns, (curData chain (idx + 1)).oldsoa.length, 0, 0, st.posn⟩
      = emittedSpec chain start idx st := by
  obtain ⟨hw1, hw2, hw3, hw4, hw5, hw6, hw7, hw8, hw9, hw10⟩ := hwf
  have hca : st.ca = (curData chain idx).add.length := by omega
  have hca0 : st.ca ≠ 0 := by omega
  have hcd : st.cd = (curData chain idx).del.length := by
    by_cases h : st.cd < (curData chain idx).del.length
    · exact absurd (hw9 h) hca0
    · omega
  have hcos : st.cos = (curData chain idx).oldsoa.length := by
    by_cases h : st.cos < (curData chain idx).oldsoa.length
    · exact absurd (hw7 h).2 hca0
    · rcases hw5 with h2 | h2 <;> omega
  have hcns : st.cns = (endData chain).newsoa.length := by
    by_cases h : st.cns < (endData chain).newsoa.length
    · exact absurd (hw4 h).2.2.2 hca0
    · rcases hw3 with h2 | h2 <;> omega
  constructor
  · refine ⟨by omega, hnext, hw3, ?_, Or.inr rfl, fun _ => rfl,
      fun h => ⟨rfl, rfl⟩, Nat.zero_le _, fun _ => rfl, Nat.zero_le _⟩
    intro h
    have h' : st.cns < (endData chain).newsoa.length := h
    omega
  · by_cases his : idx = start
    · subst his
      simp only [emittedSpec, if_neg (show ¬ idx + 1 = idx by omega),
        if_pos rfl]
      rw [show idx + 1 - (idx + 1) = 0 by omega]
      rw [hcos, hcd, hca]
      simp [List.take_length, segPayload, List.append_assoc]
    · have hlt : start < idx := by omega
      simp only [emittedSpec, if_neg his,
        if_neg (show ¬ idx + 1 = start by omega)]
      have hn : idx - (start + 1) < (chain.drop (start + 1)).length := by
        rw [List.length_drop]
        omega
      have e1 : idx + 1 - (start + 1) = (idx - (start + 1)) + 1 := by omega
      have e2 : (chain.drop (start + 1)).getD (idx - (start + 1)) default
          = curData chain idx := by
        rw [drop_getD chain (start + 1) (idx - (start + 1)) (by omega),
          show (start + 1) + (idx - (start + 1)) = idx by omega]
        rfl
      rw [e1, take_succ_getD _ _ hn, e2]
      rw [hcd, hca]
      simp [List.map_append, List.flatten_append, segPayload,
        List.take_length, List.append_assoc]

/-- The complete byte stream the source emits for a connected chain served
from segment `start`: the final segment's new-SOA, then the start
segment's old-SOA, then every segment's deleted and added runs in order.
(Each segment's added run itself ends in that segment's new-SOA, placed
there by `ixfr_store_finish`, which is how consecutive segments are
separated on the wire.) -/
def ixfr_stream_src (chain : List IxfrData) (start : Nat) : List Nat :=
  (endData chain).newsoa ++ ((curData chain start).oldsoa
    ++ ((chain.drop start).map segPayload).flatten)

/-- The per-segment RR list the specification text claims: old-SOA, deleted
run, a local new-SOA, added run — for every segment from the start onward. -/
def ixfr_stream_claimed (chain : List IxfrData) (start : Nat) : List Nat :=
  (endData chain).newsoa
    ++ ((chain.drop start).map
      (fun d => d.oldsoa ++ (d.del ++ (d.newsoa ++ d.add)))).flatten

/-- `emittedSpec` reads only the four copy counters of the state. -/
theorem emittedSpec_counters (chain : List IxfrData) (start idx : Nat)
    (st st' : SState) (h1 : st.cns = st'.cns) (h2 : st.cos = st'.cos)
    (h3 : st.cd = st'.cd) (h4 : st.ca = st'.ca) :
    emittedSpec chain start idx st = emittedSpec chain start idx st' := by
  simp only [emittedSpec, h1, h2, h3, h4]

/-- At the last segment with all four counters full, the emitted-bytes
specification equals the complete stream. -/
theorem emittedSpec_last_full (chain : List IxfrData) (start : Nat)
    (st : SState) (hs : start < chain.length)
    (h1 : st.cns = (endData chain).newsoa.length)
    (h2 : st.cos = (curData chain (chain.length - 1)).oldsoa.length)
    (h3 : st.cd = (curData chain (chain.length - 1)).del.length)
    (h4 : st.ca = (curData chain (chain.length - 1)).add.length) :
    emittedSpec chain start (chain.length - 1) st
      = ixfr_stream_src chain start := by
  by_cases his : chain.length - 1 = start
  · rw [emittedSpec, if_pos his, ixfr_stream_src]
    rw [h1, h2, h3, h4, his]
    have hdrop : chain.drop (start + 1) = [] :=
      List.drop_eq_nil_of_le (by omega)
    rw [drop_eq_getD_cons chain start hs, hdrop]
    simp [List.take_length, segPayload, curData, List.append_assoc]
  · have hlt : start < chain.length - 1 := by omega
    rw [emittedSpec, if_neg his, ixfr_stream_src]
    rw [h1, h3, h4]
    simp only [List.take_length]
    congr 1
    congr 1
    have hsplit : chain.drop (start + 1)
        = (chain.drop (start + 1)).take (chain.length - 1 - (start + 1))
          ++ chain.drop (chain.length - 1) := by
      conv_lhs => rw [← List.take_append_drop
        (chain.length - 1 - (start + 1)) (chain.drop (start + 1))]
      congr 1
      rw [List.drop_drop]
      congr 1
      omega
    have hlastd : chain.drop (chain.length - 1)
        = [chain.getD (chain.length - 1) default] := by
      rw [drop_eq_getD_cons chain (chain.length - 1) (by omega)]
      rw [List.drop_eq_nil_of_le (by omega)]
    conv_rhs => rw [drop_eq_getD_cons chain start hs, hsplit, hlastd]
    simp [List.map_append, List.flatten_append, segPayload, curData,
      List.append_assoc]

/-- What one `query_ixfr` call leaves behind: the query's segment index and
stream counters, the buffer position, the answer bytes written, the RR
count (`total_added`), and `ixfr_is_done`. -/
structure PacketOut where
  idx : Nat
  st : SState
  pos : Nat
  out : List Nat
  added : Nat
  done : Bool
  deriving Repr, DecidableEq, Inhabited

/-- The `while(query->ixfr_count_add >= query->ixfr_data->add_len)` loop of
`query_ixfr`: while the current segment's add run is exhausted, either move
to the next segment — skipping its old-SOA by presetting
`ixfr_count_oldsoa` to its length, zeroing del/add counters — and copy it
into the packet, or, at the last segment, mark the stream done.  Fuel only
makes the recursion structural; the index grows every round. -/
def advance_loop_fuel (chain : List IxfrData) (maxlen : Nat) :
    Nat → Nat → SState → Nat → List Nat → Nat → PacketOut
  | 0, idx, st, pos, out, added => ⟨idx, st, pos, out, added, false⟩
  | fuel + 1, idx, st, pos, out, added =>
    if (curData chain idx).add.length ≤ st.ca then
      if idx + 1 < chain.length then
        advance_loop_fuel chain maxlen fuel (idx + 1)
          (ixfr_copy_rrs_into_packet (endData chain)
            (curData chain (idx + 1)) maxlen
            ⟨st.cns, (curData chain (idx + 1)).oldsoa.length, 0, 0, st.posn⟩
            pos out added).st
          (ixfr_copy_rrs_into_packet (endData chain)
            (curData chain (idx + 1)) maxlen
            ⟨st.cns, (curData chain (idx + 1)).oldsoa.length, 0, 0, st.posn⟩
            pos out added).pos
          (ixfr_copy_rrs_into_packet (endData chain)
            (curData chain (idx + 1)) maxlen
            ⟨st.cns, (curData chain (idx + 1)).oldsoa.length, 0, 0, st.posn⟩
            pos out added).out
          (ixfr_copy_rrs_into_packet (endData chain)
            (curData chain (idx + 1)) maxlen
            ⟨st.cns, (curData chain (idx + 1)).oldsoa.length, 0, 0, st.posn⟩
            pos out added).added
      else ⟨idx, st, pos, out, added, true⟩
    else ⟨idx, st, pos, out, added, false⟩

def advance_loop (chain : List IxfrData) (maxlen idx : Nat) (st : SState)
    (pos : Nat) (out : List Nat) (added : Nat) : PacketOut :=
  advance_loop_fuel chain maxlen (chain.length + 1) idx st pos out added

theorem advance_loop_fuel_congr (chain : List IxfrData) (maxlen : Nat) :
    ∀ (f1 f2 idx : Nat) (st : SState) (pos : Nat) (out : List Nat)
    (added : Nat),
    chain.length - idx < f1 → chain.length - idx < f2 →
    advance_loop_fuel chain maxlen f1 idx st pos out added
      = advance_loop_fuel chain maxlen f2 idx st pos out added := by
  intro f1
  induction f1 with
  | zero =>
    intro f2 idx st pos out added h1 _
    omega
  | succ f1 ih =>
    intro f2 idx st pos out added h1 h2
    cases f2 with
    | zero => omega
    | succ f2 =>
      simp only [advance_loop_fuel]
      by_cases hc1 : (curData chain idx).add.length ≤ st.ca
      · rw [if_pos hc1, if_pos hc1]
        by_cases hc2 : idx + 1 < chain.length
        · rw [if_pos hc2, if_pos hc2]
          exact ih f2 (idx + 1) _ _ _ _ (by omega) (by omega)
        · rw [if_neg hc2, if_neg hc2]
      · rw [if_neg hc1, if_neg hc1]

theorem advance_loop_fuel_eq {chain : List IxfrData} {maxlen f idx : Nat}
    {st : SState} {pos : Nat} {out : List Nat} {added : Nat}
    (h : chain.length - idx < f) :
    advance_loop_fuel chain maxlen f idx st pos out added
      = advance_loop chain maxlen idx st pos out added :=
  advance_loop_fuel_congr chain maxlen f (chain.length + 1) idx st pos out
    added h (by omega)

/-- One `query_ixfr` packet after the stream is set up: clamp is applied by
the caller; copy RRs into the packet starting at `basepos`, then run the
segment-advance loop. -/
def ixfr_packet (chain : List IxfrData) (maxlen basepos idx : Nat)
    (st : SState) : PacketOut :=
  advance_loop chain maxlen idx
    (ixfr_copy_rrs_into_packet (endData chain) (curData chain idx) maxlen
      st basepos [] 0).st
    (ixfr_copy_rrs_into_packet (endData chain) (curData chain idx) maxlen
      st basepos [] 0).pos
    (ixfr_copy_rrs_into_packet (endData chain) (curData chain idx) maxlen
      st basepos [] 0).out
    (ixfr_copy_rrs_into_packet (endData chain) (curData chain idx) maxlen
      st basepos [] 0).added

/-- What the advance loop guarantees, relative to the state it started
from: the invariant holds, `posn` and the new-SOA counter are untouched,
the packet grew by exactly the bytes the specification grew by, and the
done flag reports whether the last segment was exhausted. -/
def LoopOK (chain : List IxfrData) (start idx : Nat) (st : SState)
    (pos : Nat) (out : List Nat) (o : PacketOut) : Prop :=
  StWF chain start o.idx o.st
  ∧ o.st.posn = st.posn
  ∧ o.st.cns = st.cns
  ∧ (∃ δ : List Nat, o.out = out ++ δ
      ∧ emittedSpec chain start o.idx o.st
        = emittedSpec chain start idx st ++ δ
      ∧ o.pos = pos + δ.length)
  ∧ (o.done = true → o.idx = chain.length - 1
      ∧ (curData chain o.idx).add.length ≤ o.st.ca)
  ∧ (o.done = false → o.st.ca < (curData chain o.idx).add.length)


set_option maxHeartbeats 1600000 in
theorem advance_loop_fuel_spec (chain : List IxfrData) (start maxlen : Nat)
    (hadds : ∀ j, j < chain.length → (curData chain j).add.length ≠ 0) :
    ∀ (fuel idx : Nat) (st : SState) (pos : Nat) (out : List Nat)
    (added : Nat),
    chain.length - idx < fuel →
    StWF chain start idx st →
    LoopOK chain start idx st pos out
      (advance_loop_fuel chain maxlen fuel idx st pos out added) := by
  intro fuel
  induction fuel with
  | zero =>
    intro idx st pos out added h1 hwf
    omega
  | succ fuel ih =>
    intro idx st pos out added h1 hwf
    obtain ⟨hw1, hw2, hw3, hw4, hw5, hw6, hw7, hw8, hw9, hw10⟩ := hwf
    by_cases hc1 : (curData chain idx).add.length ≤ st.ca
    · by_cases hc2 : idx + 1 < chain.length
      · have hadd : (curData chain idx).add.length ≠ 0 := hadds idx hw2
        have hca0 : st.ca ≠ 0 := by omega
        have hcns_full : st.cns = (endData chain).newsoa.length := by
          by_cases h : st.cns < (endData chain).newsoa.length
          · exact absurd (hw4 h).2.2.2 hca0
          · rcases hw3 with h2 | h2 <;> omega
        obtain ⟨hwf2, hspec⟩ := advance_spec chain start idx st
          ⟨hw1, hw2, hw3, hw4, hw5, hw6, hw7, hw8, hw9, hw10⟩ hc1 hadd hc2
        obtain ⟨r, hr⟩ : ∃ q : CopyOut,
            ixfr_copy_rrs_into_packet (endData chain)
              (curData chain (idx + 1)) maxlen
              ⟨st.cns, (curData chain (idx + 1)).oldsoa.length, 0, 0,
                st.posn⟩ pos out added = q := ⟨_, rfl⟩
        obtain ⟨hwfr, δ1, hd1out, hd1spec, hd1pos⟩ :=
          copy_spec chain start (idx + 1) maxlen pos
            ⟨st.cns, (curData chain (idx + 1)).oldsoa.length, 0, 0, st.posn⟩
            out added hwf2 hr
        rcases ixfr_copy_props (endData chain) (curData chain (idx + 1))
          maxlen
          ⟨st.cns, (curData chain (idx + 1)).oldsoa.length, 0, 0, st.posn⟩
          pos out added (Or.inr hcns_full) (Or.inr rfl) hr
          with ⟨⟨_, p1b⟩, _, _, _, _, _, _, _, _, p10, _⟩
        have hrcns : r.st.cns = st.cns := by
          rcases p1b with h | h
          · exact h
          · omega
        have hrposn : r.st.posn = st.posn := p10 hcns_full
        have hunfold : advance_loop_fuel chain maxlen (fuel + 1) idx st pos
            out added
            = advance_loop_fuel chain maxlen fuel (idx + 1) r.st r.pos
              r.out r.added := by
          simp only [advance_loop_fuel]
          rw [if_pos hc1, if_pos hc2, hr]
        rw [hunfold]
        have ihres := ih (idx + 1) r.st r.pos r.out r.added (by omega) hwfr
        simp only [LoopOK] at ihres ⊢
        obtain ⟨iwf, iposn, icns, ⟨δ2, iout, ispec, ipos⟩, idone, inotdone⟩ :=
          ihres
        refine ⟨iwf, by rw [iposn, hrposn], by rw [icns, hrcns],
          ⟨δ1 ++ δ2, ?_, ?_, ?_⟩, idone, inotdone⟩
        · rw [iout, hd1out, List.append_assoc]
        · rw [ispec, hd1spec, hspec, List.append_assoc]
        · rw [ipos, hd1pos, List.length_append]
          omega
      · have hunfold : advance_loop_fuel chain maxlen (fuel + 1) idx st pos
            out added = ⟨idx, st, pos, out, added, true⟩ := by
          simp only [advance_loop_fuel]
          rw [if_pos hc1, if_neg hc2]
        rw [hunfold]
        unfold LoopOK
        refine ⟨⟨hw1, hw2, hw3, hw4, hw5, hw6, hw7, hw8, hw9, hw10⟩, rfl,
          rfl, ⟨[], by simp, by simp, by simp⟩, fun _ => ⟨?_, hc1⟩,
          fun h => nomatch h⟩
        show idx = chain.length - 1
        omega
    · have hunfold : advance_loop_fuel chain maxlen (fuel + 1) idx st pos
          out added = ⟨idx, st, pos, out, added, false⟩ := by
        simp only [advance_loop_fuel]
        rw [if_neg hc1]
      rw [hunfold]
      unfold LoopOK
      refine ⟨⟨hw1, hw2, hw3, hw4, hw5, hw6, hw7, hw8, hw9, hw10⟩, rfl, rfl,
        ⟨[], by simp, by simp, by simp⟩, ?_, ?_⟩
      · intro h
        exact nomatch h
      · intro _
        show st.ca < (curData chain idx).add.length
        omega

/-- When a copy call writes the final new-SOA (the new-SOA counter moved),
it records `ixfr_pos_of_newsoa` as the position right after that SOA, and
the SOA's bytes are the first thing it appended to the packet. -/
theorem ixfr_copy_posn (ed d : IxfrData) (maxlen : Nat) (st : SState)
    (pos : Nat) (out : List Nat) (added : Nat) {r : CopyOut}
    (hcos : st.cos = 0 ∨ st.cos = d.oldsoa.length)
    (hr : ixfr_copy_rrs_into_packet ed d maxlen st pos out added = r)
    (hne : r.st.cns ≠ st.cns) :
    r.st.posn = pos + ed.newsoa.length
    ∧ ∃ tail : List Nat, r.out = (out ++ ed.newsoa) ++ tail := by
  rw [ixfr_copy_rrs_into_packet] at hr
  by_cases h1 : st.cns < ed.newsoa.length
  · rw [if_pos h1] at hr
    by_cases h2 : pos < maxlen ∧ pos + ed.newsoa.length < maxlen
    · rw [if_pos h2] at hr
      rcases copy_oldsoa_phase_props d maxlen
        { st with cns := ed.newsoa.length, posn := pos + ed.newsoa.length }
        (pos + ed.newsoa.length) (out ++ ed.newsoa) (added + 1) hcos hr
        with ⟨_, c2, _, _, _, _, _, _, _, _, c11, _⟩
      exact ⟨c2, ⟨_, c11⟩⟩
    · rw [if_neg h2] at hr
      subst hr
      exact absurd rfl hne
  · rw [if_neg h1] at hr
    rcases copy_oldsoa_phase_props d maxlen st pos out added hcos hr
      with ⟨c1, _⟩
    exact absurd c1 hne

/-- An exhausted, nonempty add run forces all four stream counters to be
full (emission order). -/
theorem counters_full (chain : List IxfrData) (start idx : Nat)
    (st : SState) (hwf : StWF chain start idx st)
    (hca : (curData chain idx).add.length ≤ st.ca)
    (hadd : (curData chain idx).add.length ≠ 0) :
    st.cns = (endData chain).newsoa.length
    ∧ st.cos = (curData chain idx).oldsoa.length
    ∧ st.cd = (curData chain idx).del.length
    ∧ st.ca = (curData chain idx).add.length := by
  obtain ⟨hw1, hw2, hw3, hw4, hw5, hw6, hw7, hw8, hw9, hw10⟩ := hwf
  have hca0 : st.ca ≠ 0 := by omega
  refine ⟨?_, ?_, ?_, by omega⟩
  · by_cases h : st.cns < (endData chain).newsoa.length
    · exact absurd (hw4 h).2.2.2 hca0
    · rcases hw3 with h2 | h2 <;> omega
  · by_cases h : st.cos < (curData chain idx).oldsoa.length
    · exact absurd (hw7 h).2 hca0
    · rcases hw5 with h2 | h2 <;> omega
  · by_cases h : st.cd < (curData chain idx).del.length
    · exact absurd (hw9 h) hca0
    · omega

set_option maxHeartbeats 1600000 in
/-- One full `query_ixfr` packet (copy plus segment-advance loop) appends
to the packet exactly the bytes by which the emitted-bytes specification
grows; if it marks the stream done the specification has reached the
complete stream; if this packet wrote the opening new-SOA,
`ixfr_pos_of_newsoa` points just past it and the packet starts with it. -/
theorem ixfr_packet_spec (chain : List IxfrData)
    (start maxlen basepos idx : Nat) (st : SState)
    (hadds : ∀ j, j < chain.length → (curData chain j).add.length ≠ 0)
    (hwf : StWF chain start idx st) {o : PacketOut}
    (ho : ixfr_packet chain maxlen basepos idx st = o) :
    StWF chain start o.idx o.st
    ∧ emittedSpec chain start o.idx o.st
      = emittedSpec chain start idx st ++ o.out
    ∧ o.pos = basepos + o.out.length
    ∧ (o.done = true →
        emittedSpec chain start o.idx o.st = ixfr_stream_src chain start)
    ∧ (st.posn = 0 → o.st.posn ≠ 0 →
        o.st.posn = basepos + (endData chain).newsoa.length
        ∧ ∃ tail : List Nat, o.out = (endData chain).newsoa ++ tail)
    ∧ (o.done = false → o.st.ca < (curData chain o.idx).add.length) := by
  obtain ⟨r1, hr1⟩ : ∃ q : CopyOut,
      ixfr_copy_rrs_into_packet (endData chain) (curData chain idx) maxlen
        st basepos [] 0 = q := ⟨_, rfl⟩
  have hpk : o = advance_loop chain maxlen idx r1.st r1.pos r1.out
      r1.added := by
    rw [← ho, ixfr_packet, hr1]
  obtain ⟨hwfr, δ1, hd1out, hd1spec, hd1pos⟩ :=
    copy_spec chain start idx maxlen basepos st [] 0 hwf hr1
  have hloop := advance_loop_fuel_spec chain start maxlen hadds
    (chain.length + 1) idx r1.st r1.pos r1.out r1.added (by omega) hwfr
  rw [show advance_loop_fuel chain maxlen (chain.length + 1) idx r1.st
      r1.pos r1.out r1.added
      = advance_loop chain maxlen idx r1.st r1.pos r1.out r1.added
    from rfl, ← hpk] at hloop
  unfold LoopOK at hloop
  obtain ⟨lwf, lposn, lcns, ⟨δ2, lout, lspec, lpos⟩, ldone, lnotdone⟩ :=
    hloop
  have houtd : o.out = δ1 ++ δ2 := by
    rw [lout, hd1out]
    simp
  refine ⟨lwf, ?_, ?_, ?_, ?_, lnotdone⟩
  · rw [lspec, hd1spec, houtd, List.append_assoc]
  · rw [lpos, hd1pos, houtd, List.length_append]
    omega
  · intro h
    obtain ⟨hidx, hca⟩ := ldone h
    have hadd := hadds o.idx lwf.2.1
    obtain ⟨f1, f2, f3, f4⟩ := counters_full chain start o.idx o.st lwf hca
      hadd
    rw [hidx] at f2 f3 f4
    rw [hidx]
    exact emittedSpec_last_full chain start o.st
      (by
        have h1 := lwf.1
        have h2 := lwf.2.1
        omega) f1 f2 f3 f4
  · intro hp0 hpne
    obtain ⟨hw1, hw2, hw3, hw4, hw5, hw6, hw7, hw8, hw9, hw10⟩ := hwf
    by_cases hc : r1.st.cns = st.cns
    · exfalso
      rcases ixfr_copy_props (endData chain) (curData chain idx) maxlen st
        basepos [] 0 hw3 hw5 hr1
        with ⟨_, _, _, _, _, _, _, _, _, p10, p11⟩
      by_cases hlt : st.cns < (endData chain).newsoa.length
      · have hres := p11 (by omega)
        have : r1.st.posn = st.posn := by rw [hres]
        rw [lposn, this, hp0] at hpne
        exact hpne rfl
      · have hfull : st.cns = (endData chain).newsoa.length := by
          rcases hw3 with h2 | h2 <;> omega
        have := p10 hfull
        rw [lposn, this, hp0] at hpne
        exact hpne rfl
    · obtain ⟨hposn, tail, htail⟩ := ixfr_copy_posn (endData chain)
        (curData chain idx) maxlen st basepos [] 0 hw5 hr1 hc
      refine ⟨by rw [lposn, hposn], ⟨tail ++ δ2, ?_⟩⟩
      rw [lout, htail]
      simp [List.append_assoc]

/-- A TCP IXFR stream: `query_ixfr` is called per packet until it marks
the stream done; the answer sections of all packets are concatenated.
Fuel only bounds the number of packets examined; the pair's boolean tells
whether the stream completed within that many packets. -/
def run_stream_fuel (chain : List IxfrData) (maxlen basepos : Nat) :
    Nat → Nat → SState → List Nat → (List Nat × Bool)
  | 0, _, _, acc => (acc, false)
  | fuel + 1, idx, st, acc =>
    if (ixfr_packet chain maxlen basepos idx st).done then
      (acc ++ (ixfr_packet chain maxlen basepos idx st).out, true)
    else
      run_stream_fuel chain maxlen basepos fuel
        (ixfr_packet chain maxlen basepos idx st).idx
        (ixfr_packet chain maxlen basepos idx st).st
        (acc ++ (ixfr_packet chain maxlen basepos idx st).out)

/-- The state `query_ixfr` installs when it sets up a stream: all four
copy counters and `ixfr_pos_of_newsoa` zero. -/
theorem StWF_init (chain : List IxfrData) (start : Nat)
    (h : start < chain.length) :
    StWF chain start start ⟨0, 0, 0, 0, 0⟩ := by
  refine ⟨le_refl _, h, Or.inl rfl, fun _ => ⟨rfl, rfl, rfl, rfl⟩,
    Or.inl rfl, fun hs => absurd hs (lt_irrefl _), fun _ => ⟨rfl, rfl⟩,
    Nat.zero_le _, fun _ => rfl, Nat.zero_le _⟩

/-- If a stream completes, the concatenation of its packets' answer
sections extends the spec of the starting state to the complete stream. -/
theorem run_stream_fuel_spec (chain : List IxfrData)
    (start maxlen basepos : Nat)
    (hadds : ∀ j, j < chain.length → (curData chain j).add.length ≠ 0) :
    ∀ (fuel idx : Nat) (st : SState) (acc res : List Nat),
    StWF chain start idx st →
    run_stream_fuel chain maxlen basepos fuel idx st acc = (res, true) →
    ∃ δ : List Nat, res = acc ++ δ
      ∧ emittedSpec chain start idx st ++ δ
        = ixfr_stream_src chain start := by
  intro fuel
  induction fuel with
  | zero =>
    intro idx st acc res hwf hrun
    simp only [run_stream_fuel] at hrun
    simp at hrun
  | succ fuel ih =>
    intro idx st acc res hwf hrun
    obtain ⟨p, hp⟩ : ∃ q : PacketOut,
        ixfr_packet chain maxlen basepos idx st = q := ⟨_, rfl⟩
    simp only [run_stream_fuel] at hrun
    rw [hp] at hrun
    obtain ⟨pwf, pspec, ppos, pdone, _, _⟩ :=
      ixfr_packet_spec chain start maxlen basepos idx st hadds hwf hp
    by_cases hd : p.done = true
    · rw [if_pos hd] at hrun
      simp at hrun
      refine ⟨p.out, hrun.symm, ?_⟩
      rw [← pspec]
      exact pdone hd
    · rw [if_neg hd] at hrun
      obtain ⟨δ2, hres, hspec⟩ := ih p.idx p.st (acc ++ p.out) res pwf hrun
      refine ⟨p.out ++ δ2, by rw [hres, List.append_assoc], ?_⟩
      rw [← List.append_assoc, ← pspec, hspec]

/-- The zone apex SOA rrset as `query_ixfr` reads it: its RR count and the
serial of its first RR (the rdata is modelled well-formed, so
`soa_rr_get_serial` is the stored serial). -/
structure SoaRRset where
  rr_count : Nat
  serial : Nat
  deriving Repr, DecidableEq, Inhabited

/-- The zone as `query_ixfr` sees it: the apex SOA rrset (none when
`zone->soa_rrset` is NULL) and the IXFR version chain (the rbtree as a
sorted list; a NULL or empty `zone->ixfr` is the empty list, which makes
the serial lookup fail exactly as in the source). -/
structure ZoneM where
  soa_rrset : Option SoaRRset
  chain : List IxfrData
  deriving Repr, DecidableEq, Inhabited

/-- `zone_get_current_serial`: 0 without an apex SOA rrset or RRs, else
the first SOA RR's serial. -/
def zone_get_current_serial (z : ZoneM) : Nat :=
  match z.soa_rrset with
  | none => 0
  | some s => if s.rr_count = 0 then 0 else s.serial

/-- The walk of `connect_ixfrs` after its starting node: each segment's
`newserial` must equal the next segment's `oldserial`; the last segment's
`newserial` is the chain's end serial. -/
def connect_walk : List IxfrData → IxfrData → Option Nat
  | [], p => some p.newserial
  | n :: rest, p =>
    if p.newserial = n.oldserial then connect_walk rest n else none

/-- `connect_ixfrs` from the segment at index `i` of the chain. -/
def connect_ixfrs (chain : List IxfrData) (i : Nat) : Option Nat :=
  match chain.drop i with
  | [] => none
  | p :: rest => connect_walk rest p

/-- `zone_ixfr_find_serial` as an index into the chain list: the rbtree
lookup returns the node whose key `oldserial` equals the query serial
exactly; the index stands for that node. -/
def zone_ixfr_find_idx : List IxfrData → Nat → Option Nat
  | [], _ => none
  | d :: rest, q =>
    if d.oldserial = q then some 0
    else (zone_ixfr_find_idx rest q).map (· + 1)

theorem zone_ixfr_find_idx_lt :
    ∀ (chain : List IxfrData) (q i : Nat),
    zone_ixfr_find_idx chain q = some i → i < chain.length := by
  intro chain
  induction chain with
  | nil =>
    intro q i h
    simp [zone_ixfr_find_idx] at h
  | cons d rest ih =>
    intro q i h
    rw [zone_ixfr_find_idx] at h
    by_cases hq : d.oldserial = q
    · rw [if_pos hq] at h
      simp at h
      simp [← h]
    · rw [if_neg hq] at h
      rcases hfi : zone_ixfr_find_idx rest q with _ | j
      · rw [hfi] at h
        simp at h
      · rw [hfi] at h
        simp at h
        have := ih q j hfi
        simp [List.length_cons]
        omega

/-- Response codes used by `query_ixfr`.  Modelled from the spec: the
numeric DNS RCODE values live in a header outside this file. -/
def RCODE_NOERROR : Nat := 0

def RCODE_FORMAT : Nat := 1

def RCODE_SERVFAIL : Nat := 2

def RCODE_NOTAUTH : Nat := 9

/-- Outcome of the first `query_ixfr` call for a parsed query serial:
either a single finished response (rcode, answer count, AA flag), a fall
back to AXFR, or an established IXFR stream serving from a chain index. -/
inductive QueryResponse where
  | processed (rcode : Nat) (ancount : Nat) (aa : Bool)
  | axfr
  | stream (start : Nat)
  deriving Repr, DecidableEq, Inhabited

/-- The first-packet decision logic of `query_ixfr` (ixfr.c:272-352),
after `parse_qserial` has produced the query serial: no zone is NOTAUTH;
a query serial equal to or newer than the current serial under RFC 1982
comparison gets the single up-to-date SOA (SERVFAIL without a one-RR apex
SOA rrset; the SOA encode is modelled as fitting); otherwise the serial
must be found as a chain key and the chain from it must connect and end at
the current serial, else AXFR; if all that holds a stream is set up at
that segment. -/
def query_ixfr_first (z : Option ZoneM) (qserial : Nat) : QueryResponse :=
  match z with
  | none => QueryResponse.processed RCODE_NOTAUTH 0 false
  | some zone =>
    if compare_serial qserial (zone_get_current_serial zone) ≥ 0 then
      match zone.soa_rrset with
      | none => QueryResponse.processed RCODE_SERVFAIL 0 false
      | some s =>
        if s.rr_count ≠ 1 then
          QueryResponse.processed RCODE_SERVFAIL 0 false
        else QueryResponse.processed RCODE_NOERROR 1 true
    else
      match zone_ixfr_find_idx zone.chain qserial with
      | none => QueryResponse.axfr
      | some i =>
        match connect_ixfrs zone.chain i with
        | none => QueryResponse.axfr
        | some endserial =>
          if endserial ≠ zone_get_current_serial zone then
            QueryResponse.axfr
          else QueryResponse.stream i

/-- What reaches the client from one `query_ixfr` call after the answer is
finalized (ixfr.c:388-404): the answer bytes kept in the packet, the
answer count, the TC bit, and whether the stream was marked done. -/
structure UdpReply where
  answer : List Nat
  ancount : Nat
  tc : Bool
  done : Bool
  deriving Repr, DecidableEq, Inhabited

/-- The end of `query_ixfr`: ANCOUNT is the number of RRs added; on a
non-TCP transport with the stream not yet done, TC is set and the stream
marked done, and only if `ixfr_pos_of_newsoa` is nonzero is the packet
snipped back to it with ANCOUNT forced to 1. -/
def query_ixfr_finalize (basepos : Nat) (tcp : Bool) (o : PacketOut) :
    UdpReply :=
  if tcp = false ∧ o.done = false then
    if o.st.posn ≠ 0 then
      ⟨o.out.take (o.st.posn - basepos), 1, true, true⟩
    else ⟨o.out, o.added, true, true⟩
  else ⟨o.out, o.added, false, o.done⟩

/-- A minimal well-formed RR on the segment wire format: root owner name,
type/class/ttl, rdlen 1, one marker rdata byte; 12 bytes in all. -/
def rr1 (t : Nat) : List Nat := [0, 0, 6, 0, 1, 0, 0, 0, 0, 0, 1, t]

/-- C8: per response packet the wire-length cap is min(peer max, 16384),
and a candidate RR of length l at the current write position is copied
iff position < max and position + l < max; when it does not fit the
copying loop stops, leaving packet and counters unchanged. -/
theorem claim_c8 (m : Nat) (buf : List Nat) (maxlen cnt pos : Nat)
    (out : List Nat) (added : Nat)
    (hcnt : cnt < buf.length) (hrr : count_rr_length buf cnt ≠ 0) :
    query_ixfr_clamp_maxlen m = min m IXFR_MAX_MESSAGE_LEN
    ∧ (pos < maxlen ∧ pos + count_rr_length buf cnt < maxlen →
        copy_section buf maxlen cnt pos out added
          = copy_section buf maxlen (cnt + count_rr_length buf cnt)
            (pos + count_rr_length buf cnt)
            (out ++ (buf.drop cnt).take (count_rr_length buf cnt))
            (added + 1))
    ∧ (¬(pos < maxlen ∧ pos + count_rr_length buf cnt < maxlen) →
        copy_section buf maxlen cnt pos out added
          = ⟨cnt, pos, out, added, false⟩) := by
  refine ⟨?_, ?_, ?_⟩
  · rw [query_ixfr_clamp_maxlen]
    by_cases h : m > IXFR_MAX_MESSAGE_LEN
    · rw [if_pos h]
      omega
    · rw [if_neg h]
      omega
  · intro h
    rw [copy_section, copy_section_fuel, if_pos hcnt,
      if_pos ⟨hrr, h.1, h.2⟩]
    exact copy_section_fuel_eq (by omega)
  · intro h
    rw [copy_section, copy_section_fuel, if_pos hcnt,
      if_neg (fun hc => h ⟨hc.2.1, hc.2.2⟩)]

/-- Witness: a 12-byte RR at offset 0 of a well-formed buffer, cap 100,
position 12. -/
theorem claim_c8_witness :
    query_ixfr_clamp_maxlen 20000 = min 20000 IXFR_MAX_MESSAGE_LEN
    ∧ (12 < 100 ∧ 12 + count_rr_length (rr1 5) 0 < 100 →
        copy_section (rr1 5) 100 0 12 [] 0
          = copy_section (rr1 5) 100 (0 + count_rr_length (rr1 5) 0)
            (12 + count_rr_length (rr1 5) 0)
            ([] ++ ((rr1 5).drop 0).take (count_rr_length (rr1 5) 0))
            (0 + 1))
    ∧ (¬(12 < 100 ∧ 12 + count_rr_length (rr1 5) 0 < 100) →
        copy_section (rr1 5) 100 0 12 [] 0 = ⟨0, 12, [], 0, false⟩) :=
  claim_c8 20000 (rr1 5) 100 0 12 [] 0 (by decide) (by decide)
